import Mathlib

/-!
Verification of the openclaw-mobile proxy core (`proxy/server.py`) against its
natural-language specification.  The Python source is shallowly embedded:
pure helpers become Lean functions over `String` / `List Char` / `List UInt8`,
stateful handlers become pure functions over explicit state values, and the
I/O boundary (upstream providers, the filesystem, SHA-256) is passed in as an
explicit function argument.  Machine integers in the source are plain Python
ints, so `Nat`/`Int` model them exactly.
-/

set_option maxHeartbeats 1000000

namespace OpenClaw

/-! ## Python string primitives -/

/-- The characters Python's `str.strip()` removes (ASCII fragment; the proxy
only ever strips ASCII payload edges). -/
def isPySpace (c : Char) : Bool :=
  c == ' ' || c == '\t' || c == '\n' || c == '\r' || c == '\x0b' || c == '\x0c'

def pyStripL (cs : List Char) : List Char :=
  ((cs.dropWhile isPySpace).reverse.dropWhile isPySpace).reverse

/-- Python `s.strip()`. -/
def pyStrip (s : String) : String := ⟨pyStripL s.data⟩

/-- Python `os.path.basename` on POSIX: everything after the last slash. -/
def basename (s : String) : String :=
  ⟨(s.data.reverse.takeWhile (fun c => c ≠ '/')).reverse⟩

/-- Python `str.lower()` (ASCII fragment; the code only lowercases file
extensions). -/
def pyToLower (s : String) : String :=
  ⟨s.data.map (fun c => if 'A' ≤ c ∧ c ≤ 'Z' then Char.ofNat (c.toNat + 32) else c)⟩

/-- A hexadecimal digit, as `hashlib.sha256(...).hexdigest()` emits. -/
def isHexDigitChar (c : Char) : Bool :=
  c.isDigit || ('a' ≤ c && c ≤ 'f')

/-! ## Tier table and providers (`TIER_LEVEL`, `LIMITS`, provider maps) -/

structure TierLimits where
  max_context_tokens : Nat
  max_output_tokens : Nat
  daily_tokens : Nat
deriving DecidableEq

inductive Tier | free | pro | max
deriving DecidableEq

def TIER_LEVEL : Tier → Nat
  | .free => 0
  | .pro => 1
  | .max => 2

def LIMITS : Tier → TierLimits
  | .free => ⟨8000, 2048, 60000⟩
  | .pro => ⟨32000, 1024, 600000⟩
  | .max => ⟨64000, 2048, 1200000⟩

def tier_name : Tier → String
  | .free => "free"
  | .pro => "pro"
  | .max => "max"

inductive Provider | deepseek | kimi | claude
deriving DecidableEq

def provider_name : Provider → String
  | .deepseek => "deepseek"
  | .kimi => "kimi"
  | .claude => "claude"

/-- The default provider for a tier (`_call_llm`, line 3109). -/
def default_provider_for_tier : Tier → Provider
  | .free => .kimi
  | .pro => .kimi
  | .max => .claude

/-- The tier a forced provider requires (`_call_llm`, line 3117). -/
def forced_provider_min_tier : Provider → Tier
  | .deepseek => .free
  | .kimi => .pro
  | .claude => .max

def TOKEN_TTL_SECONDS : Int := 30 * 86400
def TOKEN_REFRESH_WINDOW_SECONDS : Int := 7 * 86400

/-! ## Approximate token estimator (`_approx_tokens`, `_messages_approx_tokens`) -/

/-- `_approx_tokens`: `0` for the empty string, else `max(1, (len+3)//4)`. -/
def approx_tokens (text : String) : Nat :=
  if text.length = 0 then 0 else Nat.max 1 ((text.length + 3) / 4)

/-- One element of an OpenAI-style multimodal content list. -/
inductive ContentPart
  | text (s : String)
  | image_url (url : String)
deriving DecidableEq

/-- A chat message's `content` field: either a plain string or a part list. -/
inductive MsgContent
  | str (s : String)
  | parts (ps : List ContentPart)
deriving DecidableEq

structure ChatMsg where
  role : String
  content : MsgContent
deriving DecidableEq

def part_approx : ContentPart → Nat
  | .text s => approx_tokens s
  | .image_url _ => 0

/-- `_messages_approx_tokens`: strings count whole, part lists count text
parts only. -/
def messages_approx_tokens (messages : List ChatMsg) : Nat :=
  messages.foldl
    (fun total m =>
      match m.content with
      | .str c => total + approx_tokens c
      | .parts ps => ps.foldl (fun t p => t + part_approx p) total)
    0

/-- Spec-side formula for the estimator, written as the spec states it:
`max(1, ceil(len(text)/4))` with a genuine ceiling. -/
def spec_approx_tokens (text : String) : Nat :=
  Nat.max 1 (if text.length % 4 = 0 then text.length / 4 else text.length / 4 + 1)

/-- The text parts of a content list, in order (spec-side helper). -/
def text_parts : List ContentPart → List String
  | [] => []
  | .text s :: ps => s :: text_parts ps
  | .image_url _ :: ps => text_parts ps

/-! ## Context truncation (`_truncate_messages_to_fit`) -/

def truncate_keep (system_msgs : List ChatMsg) (max_context_tokens : Nat) :
    List ChatMsg → List ChatMsg
  | [] => []
  | m :: rest =>
    if messages_approx_tokens (system_msgs ++ (m :: rest)) > max_context_tokens then
      truncate_keep system_msgs max_context_tokens rest
    else
      m :: rest

/-- `_truncate_messages_to_fit`: keep all system messages, drop the oldest
non-system messages until under the limit. -/
def truncate_messages_to_fit (messages : List ChatMsg) (max_context_tokens : Nat) :
    List ChatMsg :=
  let system_msgs := messages.filter (fun m => m.role == "system")
  let non_system := messages.filter (fun m => m.role != "system")
  system_msgs ++ truncate_keep system_msgs max_context_tokens non_system

/-! ## Errors raised by handlers (`HTTPException(status_code, detail)`) -/

structure ApiError where
  status : Nat
  detail : String
deriving DecidableEq

/-! ## Token rows and the auth checks (`_get_token_row`, `_require_user`,
`_get_tier_for_token`, `auth_refresh`) -/

structure DeviceTokenRow where
  tier : String
  status : String
  user_id : Option String
  expires_at : Option Int
deriving DecidableEq

/-- `_get_token_row` expiry filter (line 1455): a row whose `expires_at` is a
positive int lying at or before `now` is treated as absent. -/
def get_token_row (row : Option DeviceTokenRow) (now : Int) : Option DeviceTokenRow :=
  match row with
  | none => none
  | some d =>
    match d.expires_at with
    | some exp => if 0 < exp ∧ now ≥ exp then none else some d
    | none => some d

/-- `_get_tier_for_token` (line 1779): absent rows give 401, non-active rows
403, otherwise the row's tier string is returned. -/
def get_tier_for_token (row : Option DeviceTokenRow) (now : Int) : Except ApiError String :=
  match get_token_row row now with
  | none => .error ⟨401, "invalid token"⟩
  | some r => if r.status ≠ "active" then .error ⟨403, "token disabled"⟩ else .ok r.tier

/-- `_require_user` (lines 1610-1628); `user_exists` stands for the
`_get_user_row_by_id` lookup. -/
def require_user_gate (row : Option DeviceTokenRow) (user_exists : String → Bool)
    (now : Int) : Except ApiError Unit :=
  match row with
  | none => .error ⟨401, "invalid token"⟩
  | some trow =>
    if (match trow.expires_at with
        | some exp => decide (0 < exp ∧ now ≥ exp)
        | none => false) then
      .error ⟨401, "token expired"⟩
    else if trow.status ≠ "active" then
      .error ⟨403, "token disabled"⟩
    else
      match trow.user_id with
      | none => .error ⟨401, "token not associated with user"⟩
      | some uid =>
        if uid = "" then .error ⟨401, "token not associated with user"⟩
        else if user_exists uid then .ok () else .error ⟨401, "user not found"⟩

/-- The decision chain of `auth_refresh` (lines 2622-2636) after the row has
been fetched: status, user link, refreshability, expiry, refresh window. -/
def auth_refresh_gate (status : String) (user_id : Option String)
    (expires_at : Option Int) (now : Int) : Except ApiError Unit :=
  if status ≠ "active" then .error ⟨403, "token disabled"⟩
  else if (user_id.getD "") = "" then .error ⟨401, "token not associated with user"⟩
  else
    match expires_at with
    | none => .error ⟨400, "token is not refreshable"⟩
    | some exp =>
      if exp ≤ 0 then .error ⟨400, "token is not refreshable"⟩
      else if now ≥ exp then .error ⟨401, "token expired"⟩
      else if exp - now ≥ TOKEN_REFRESH_WINDOW_SECONDS then
        .error ⟨400, "refresh only allowed in the last 7 days"⟩
      else .ok ()

/-! ## Daily usage counters (`_get_daily_usage`, `_bump_daily_usage`) -/

structure DailyUsage where
  prompt_tokens : Nat
  completion_tokens : Nat
  requests : Nat
deriving DecidableEq

/-- `_bump_daily_usage` upsert: `(+prompt, +completion, +1 request)`. -/
def bump_daily_usage (u : DailyUsage) (prompt completion : Nat) : DailyUsage :=
  ⟨u.prompt_tokens + prompt, u.completion_tokens + completion, u.requests + 1⟩

/-! ## `_call_llm` (one-shot chat): forced-provider gate, upstream-key check,
truncation, daily quota gate, output cap, then the provider call.

The upstream HTTP call is abstracted as the function argument `upstream`
(given the provider, the truncated messages and the capped `max_tokens`, it
yields the assistant content and the reported completion-token count); the
`upstream_calls` counter in the result records how many times it ran.  In
mock mode no upstream runs. -/

structure UpstreamReply where
  content : String
  completion_tokens : Nat

/-- `f"[MOCK:{provider}:{tier}] " + messages[-1]["content"]`; string + list is
a `TypeError` in Python (surfacing as an internal error), hence `none` when
the last message's content is a part list. -/
def mock_reply (provider : Provider) (tier : Tier) (messages : List ChatMsg) :
    Option String :=
  match messages.getLast? with
  | none => some ("[MOCK:" ++ provider_name provider ++ ":" ++ tier_name tier ++ "] ")
  | some m =>
    match m.content with
    | .str s =>
      some ("[MOCK:" ++ provider_name provider ++ ":" ++ tier_name tier ++ "] " ++ s)
    | .parts _ => none

structure CallLlmOut where
  result : Except ApiError String
  usage : DailyUsage
  upstream_calls : Nat

/-- `_call_llm` after the forced-provider gate (lines 3123-3215). -/
def call_llm_core (mock_mode : Bool) (has_key : Provider → Bool)
    (upstream : Provider → List ChatMsg → Nat → UpstreamReply)
    (tier : Tier) (provider : Provider) (req_max_tokens : Option Int)
    (messages : List ChatMsg) (usage : DailyUsage) : CallLlmOut :=
  let limits := LIMITS tier
  if ¬mock_mode ∧ ¬has_key provider then
    ⟨.error ⟨500, "missing upstream api key"⟩, usage, 0⟩
  else
    let messages := truncate_messages_to_fit messages limits.max_context_tokens
    let prompt_tokens := messages_approx_tokens messages
    let used_total := usage.prompt_tokens + usage.completion_tokens
    if used_total + prompt_tokens > limits.daily_tokens then
      ⟨.error ⟨429, "daily quota exceeded"⟩, usage, 0⟩
    else
      let max_tokens :=
        match req_max_tokens with
        | some m => if 0 < m then Nat.min m.toNat limits.max_output_tokens
                    else limits.max_output_tokens
        | none => limits.max_output_tokens
      if mock_mode then
        match mock_reply provider tier messages with
        | none => ⟨.error ⟨500, "Internal error"⟩, usage, 0⟩
        | some reply =>
          let completion_tokens := Nat.min limits.max_output_tokens (approx_tokens reply)
          ⟨.ok reply, bump_daily_usage usage prompt_tokens completion_tokens, 0⟩
      else
        let rep := upstream provider messages max_tokens
        ⟨.ok rep.content, bump_daily_usage usage prompt_tokens rep.completion_tokens, 1⟩

/-- `_call_llm` (lines 3097-3217): provider selection, forced-provider tier
gate (403 before anything else), then `call_llm_core`. -/
def call_llm (mock_mode : Bool) (has_key : Provider → Bool)
    (upstream : Provider → List ChatMsg → Nat → UpstreamReply)
    (tier : Tier) (forced_provider : Option Provider) (req_max_tokens : Option Int)
    (messages : List ChatMsg) (usage : DailyUsage) : CallLlmOut :=
  match forced_provider with
  | some f =>
    if TIER_LEVEL (forced_provider_min_tier f) > TIER_LEVEL tier then
      ⟨.error ⟨403, "tier not allowed"⟩, usage, 0⟩
    else
      call_llm_core mock_mode has_key upstream tier f req_max_tokens messages usage
  | none =>
    call_llm_core mock_mode has_key upstream tier (default_provider_for_tier tier)
      req_max_tokens messages usage

/-! ## Streaming chat (`conversation_chat_stream`, lines 3786-3967)

The generator body is modelled as a pure function from the upstream outcome
to the trace of externally visible actions it performs, in order: SSE events
emitted to the client, the upstream stream being opened, the assistant
message being persisted, and the usage counters being bumped.  Keepalive
comments depend on real time only and carry no data, so they are not part of
the trace. -/

/-- The JSON object of one SSE `data:` event; absent keys are `none`. -/
structure SseData where
  delta : Option String := none
  done : Option Bool := none
  content : Option String := none
  message_id : Option String := none
  error : Option String := none
deriving DecidableEq

inductive StreamAct
  | emit (e : SseData)
  | open_stream (p : Provider)
  | persist_assistant (message_id : String) (content : String)
  | bump_usage (prompt completion : Nat)
deriving DecidableEq

/-- `_sse_error_once` (lines 2190-2194): one terminal event
`{error: str(message or "error"), done: true}`. -/
def sse_error_once (message : String) : List SseData :=
  [{ error := some (if message = "" then "error" else message), done := some true }]

def delta_frame (ch : Char) : SseData :=
  { delta := some ⟨[ch]⟩, done := some false }

def final_frame (message_id content : String) : SseData :=
  { delta := some "", done := some true, message_id := some message_id,
    content := some content }

def quota_frame : SseData :=
  { error := some "daily quota exceeded", done := some true }

/-- The event yielded by the generator's blanket `except` handler
(line 3960): `{"error": "Internal error"}` — note: no `done` key. -/
def internal_error_frame : SseData :=
  { error := some "Internal error" }

/-- The upstream delta stream as the consumer sees it: either it terminates
normally after yielding `items`, or it raises after yielding `items`. -/
inductive UpstreamOutcome
  | ok (items : List String)
  | failed (items : List String)

/-- The characters the consumer loop collects and forwards one frame each
(lines 3914-3922): non-empty string items broken into characters. -/
def consumed_chars (items : List String) : List Char :=
  items.flatMap (fun item => if item = "" then [] else item.data)

/-- The `stream_gen` generator (lines 3786-3960): truncation, quota gate,
upstream start, per-character frames, persist-then-final-frame on success, a
single `Internal error` event when the producer raised.  The `max_tokens` cap
(lines 3816-3820) only shapes the upstream request body, which the
`UpstreamOutcome` argument abstracts. -/
def stream_gen (mock_mode : Bool) (has_key : Provider → Bool) (tier : Tier)
    (oai_messages : List ChatMsg) (usage : DailyUsage)
    (assistant_message_id : String) (ups : UpstreamOutcome) : List StreamAct :=
  let limits := LIMITS tier
  let provider := default_provider_for_tier tier
  let messages := truncate_messages_to_fit oai_messages limits.max_context_tokens
  let prompt_tokens := messages_approx_tokens messages
  if usage.prompt_tokens + usage.completion_tokens + prompt_tokens > limits.daily_tokens then
    [.emit quota_frame]
  else if ¬mock_mode ∧ ¬has_key provider then
    [.emit internal_error_frame]
  else
    match ups with
    | .ok items =>
      let chars := consumed_chars items
      let full : String := ⟨chars⟩
      .open_stream provider :: (chars.map (fun ch => .emit (delta_frame ch)))
        ++ [.persist_assistant assistant_message_id full,
            .bump_usage prompt_tokens (approx_tokens full),
            .emit (final_frame assistant_message_id full)]
    | .failed items =>
      .open_stream provider :: ((consumed_chars items).map (fun ch => .emit (delta_frame ch)))
        ++ [.emit internal_error_frame]

/-- The SSE events of a trace, in emission order. -/
def events_of (tr : List StreamAct) : List SseData :=
  tr.filterMap (fun a => match a with | .emit e => some e | _ => none)

/-- The concatenated `delta` payloads of the `done:false` events of a trace
(claim C1's left-hand side), as a character list. -/
def delta_chars_of (tr : List StreamAct) : List Char :=
  ((events_of tr).filter (fun e => e.done = some false)).flatMap
    (fun e => (e.delta.getD "").data)

/-! ## Attachment ingest (`_detect_mime_type`, `_guess_extension`,
`_handle_file_upload_request`)

File payloads are `List UInt8`.  SHA-256 is the explicit function argument
`sha_hex` (its hex digest is all the handler uses). -/

def ALLOWED_IMAGE_TYPES : List String :=
  ["image/jpeg", "image/png", "image/gif", "image/webp"]

def ALLOWED_FILE_TYPES : List String :=
  ["application/pdf", "text/plain", "text/csv", "application/json", "text/markdown"]

def MAX_IMAGE_SIZE : Nat := 10 * 1024 * 1024
def MAX_FILE_SIZE : Nat := 20 * 1024 * 1024

/-- A strict UTF-8 validity check, as Python's `bytes.decode("utf-8")`
accepts: no overlong forms, no surrogates, max U+10FFFF. -/
def utf8_valid : List UInt8 → Bool
  | [] => true
  | b :: r =>
    if b ≤ 0x7F then utf8_valid r
    else if 0xC2 ≤ b ∧ b ≤ 0xDF then
      match r with
      | c1 :: r1 => if 0x80 ≤ c1 ∧ c1 ≤ 0xBF then utf8_valid r1 else false
      | [] => false
    else if b = 0xE0 then
      match r with
      | c1 :: c2 :: r2 =>
        if (0xA0 ≤ c1 ∧ c1 ≤ 0xBF) ∧ (0x80 ≤ c2 ∧ c2 ≤ 0xBF) then utf8_valid r2 else false
      | _ => false
    else if (0xE1 ≤ b ∧ b ≤ 0xEC) ∨ b = 0xEE ∨ b = 0xEF then
      match r with
      | c1 :: c2 :: r2 =>
        if (0x80 ≤ c1 ∧ c1 ≤ 0xBF) ∧ (0x80 ≤ c2 ∧ c2 ≤ 0xBF) then utf8_valid r2 else false
      | _ => false
    else if b = 0xED then
      match r with
      | c1 :: c2 :: r2 =>
        if (0x80 ≤ c1 ∧ c1 ≤ 0x9F) ∧ (0x80 ≤ c2 ∧ c2 ≤ 0xBF) then utf8_valid r2 else false
      | _ => false
    else if b = 0xF0 then
      match r with
      | c1 :: c2 :: c3 :: r3 =>
        if (0x90 ≤ c1 ∧ c1 ≤ 0xBF) ∧ (0x80 ≤ c2 ∧ c2 ≤ 0xBF) ∧ (0x80 ≤ c3 ∧ c3 ≤ 0xBF)
        then utf8_valid r3 else false
      | _ => false
    else if 0xF1 ≤ b ∧ b ≤ 0xF3 then
      match r with
      | c1 :: c2 :: c3 :: r3 =>
        if (0x80 ≤ c1 ∧ c1 ≤ 0xBF) ∧ (0x80 ≤ c2 ∧ c2 ≤ 0xBF) ∧ (0x80 ≤ c3 ∧ c3 ≤ 0xBF)
        then utf8_valid r3 else false
      | _ => false
    else if b = 0xF4 then
      match r with
      | c1 :: c2 :: c3 :: r3 =>
        if (0x80 ≤ c1 ∧ c1 ≤ 0x8F) ∧ (0x80 ≤ c2 ∧ c2 ≤ 0xBF) ∧ (0x80 ≤ c3 ∧ c3 ≤ 0xBF)
        then utf8_valid r3 else false
      | _ => false
    else false

/-- `_is_likely_utf8_text` (lines 543-553): empty is text; a 4 KiB sample
must be NUL-free and decode as UTF-8. -/
def is_likely_utf8_text (file_bytes : List UInt8) : Bool :=
  if file_bytes = [] then true
  else
    let sample := file_bytes.take 4096
    if sample.contains 0 then false else utf8_valid sample

/-- The bytes Python's `bytes.lstrip()` removes. -/
def isPySpaceByte (b : UInt8) : Bool :=
  b == 0x20 || b == 0x09 || b == 0x0A || b == 0x0D || b == 0x0B || b == 0x0C

/-- The index of the last occurrence of `c` (Python `str.rfind`). -/
def rfindIdx (cs : List Char) (c : Char) : Option Nat :=
  match cs.reverse.findIdx? (fun x => x = c) with
  | some k => some (cs.length - 1 - k)
  | none => none

/-- `Path(name).suffix`: `name.rfind('.')` on the final component, returning
`name[i:]` only when `0 < i < len(name) - 1`. -/
def path_ext_of_name (name : String) : String :=
  let nm := (basename name).data
  match rfindIdx nm '.' with
  | some i => if 0 < i ∧ i < nm.length - 1 then ⟨nm.drop i⟩ else ""
  | none => ""

/-- The fragment of the stdlib `mimetypes.guess_type` table that can map a
suffix into `ALLOWED_FILE_TYPES` (all other suffixes either miss the table or
map outside the allowed set, which `_detect_mime_type` treats identically as
"not allowed"; those all collapse to the `none` row here). -/
def mimetypes_guess_type (name : String) : Option String :=
  let s := pyToLower (path_ext_of_name name)
  if s = ".pdf" then some "application/pdf"
  else if s = ".txt" ∨ s = ".bat" ∨ s = ".c" ∨ s = ".h" ∨ s = ".ksh" ∨ s = ".pl" then
    some "text/plain"
  else if s = ".csv" then some "text/csv"
  else if s = ".json" then some "application/json"
  else none

/-- `_detect_mime_type` (lines 556-588): magic bytes, then suffix map, then
UTF-8 probe, else octet-stream. -/
def detect_mime_type (file_bytes : List UInt8) (original_name : String) : String :=
  if [0xFF, 0xD8, 0xFF].isPrefixOf file_bytes then "image/jpeg"
  else if [0x89, 0x50, 0x4E, 0x47, 0x0D, 0x0A, 0x1A, 0x0A].isPrefixOf file_bytes then
    "image/png"
  else if [0x47, 0x49, 0x46, 0x38, 0x37, 0x61].isPrefixOf file_bytes
       ∨ [0x47, 0x49, 0x46, 0x38, 0x39, 0x61].isPrefixOf file_bytes then "image/gif"
  else if 12 ≤ file_bytes.length
       ∧ file_bytes.take 4 = [0x52, 0x49, 0x46, 0x46]
       ∧ (file_bytes.drop 8).take 4 = [0x57, 0x45, 0x42, 0x50] then "image/webp"
  else if [0x25, 0x50, 0x44, 0x46, 0x2D].isPrefixOf file_bytes then "application/pdf"
  else
    let suffix := pyToLower (path_ext_of_name original_name)
    if suffix = ".md" ∨ suffix = ".markdown" then "text/markdown"
    else if suffix = ".csv" then "text/csv"
    else if suffix = ".json" then "application/json"
    else if suffix = ".txt" then "text/plain"
    else if is_likely_utf8_text file_bytes then
      let stripped := (file_bytes.take 2048).dropWhile isPySpaceByte
      if stripped.head? = some 0x7B ∨ stripped.head? = some 0x5B then "application/json"
      else
        match mimetypes_guess_type original_name with
        | some t => if t ∈ ALLOWED_FILE_TYPES then t else "text/plain"
        | none => "text/plain"
    else "application/octet-stream"

/-- The `preferred` extension table of `_guess_extension` (lines 596-606). -/
def preferred_extension (mime_type : String) : Option String :=
  if mime_type = "image/jpeg" then some ".jpg"
  else if mime_type = "image/png" then some ".png"
  else if mime_type = "image/gif" then some ".gif"
  else if mime_type = "image/webp" then some ".webp"
  else if mime_type = "application/pdf" then some ".pdf"
  else if mime_type = "text/plain" then some ".txt"
  else if mime_type = "text/csv" then some ".csv"
  else if mime_type = "application/json" then some ".json"
  else if mime_type = "text/markdown" then some ".md"
  else none

/-- `_guess_extension` (lines 591-612): the name's own suffix wins; else the
preferred table.  The trailing `mimetypes.guess_extension` fallback is only
reachable for MIME types outside both allowed sets, which the upload handler
rejects before storing, so it collapses to ".bin" here. -/
def guess_extension (mime_type : String) (original_name : String) : String :=
  let suffix := pyToLower (path_ext_of_name original_name)
  if suffix ≠ "" then suffix
  else
    match preferred_extension mime_type with
    | some e => e
    | none => ".bin"

/-- `re.fullmatch(r"\.[A-Za-z0-9]{1,10}", extension)` (line 3453). -/
def ext_sanitary (e : String) : Bool :=
  match e.data with
  | c :: rest =>
    decide (c = '.') && decide (rest ≠ []) && decide (rest.length ≤ 10) &&
      rest.all (fun x => x.isAlpha || x.isDigit)
  | [] => false

/-- The per-MIME size cap (line 3447): images 10 MiB, files 20 MiB. -/
def upload_size_cap (mime_type : String) : Nat :=
  if mime_type ∈ ALLOWED_IMAGE_TYPES then MAX_IMAGE_SIZE else MAX_FILE_SIZE

/-- The multipart `filename` normalization of
`_extract_file_field_from_multipart` (line 718):
`os.path.basename(str(params.get("filename") or "upload.bin").strip() or "upload.bin")`. -/
def multipart_filename (filename_param : Option String) : String :=
  let raw := match filename_param with
    | none => "upload.bin"
    | some f => if f = "" then "upload.bin" else f
  let s := pyStrip raw
  basename (if s = "" then "upload.bin" else s)

/-- The uploads directory as a set of stored files (path → bytes). -/
abbrev UploadFs := List (String × List UInt8)

def fs_has (fs : UploadFs) (p : String) : Bool :=
  fs.any (fun e => e.1 = p)

structure UploadOut where
  original_name : String
  stored_path : String
  sha256_hash : String
  mime_type : String
  size_bytes : Nat
  fs : UploadFs
  wrote : Bool
deriving DecidableEq

/-- `_handle_file_upload_request` (lines 3419-3502) from the extracted
multipart field onward: sniff, gate on type and size, content-address under
`upload_dir`, write only when absent.  `sha_hex` abstracts
`hashlib.sha256(...).hexdigest()`; `upload_dir` is the absolute uploads root
(`os.path.abspath` is the identity on the joined path because the file name
component is a hex digest plus a sanitized extension). -/
def handle_file_upload (sha_hex : List UInt8 → String) (upload_dir : String)
    (fs : UploadFs) (filename_param : Option String) (file_bytes : List UInt8) :
    Except ApiError UploadOut :=
  let original_name := multipart_filename filename_param
  if file_bytes = [] then .error ⟨400, "empty file not allowed"⟩
  else
    let mime_type := detect_mime_type file_bytes original_name
    if ¬(mime_type ∈ ALLOWED_IMAGE_TYPES ∨ mime_type ∈ ALLOWED_FILE_TYPES) then
      .error ⟨415, "unsupported file type"⟩
    else
      if file_bytes.length > upload_size_cap mime_type then .error ⟨413, "file too large"⟩
      else
        let sha256_hash := sha_hex file_bytes
        let ext0 := guess_extension mime_type original_name
        let extension := if ext_sanitary ext0 then ext0 else ""
        let stored_path := upload_dir ++ "/" ++ sha256_hash ++ extension
        let already := fs_has fs stored_path
        let fs2 := if already then fs else fs ++ [(stored_path, file_bytes)]
        .ok ⟨original_name, stored_path, sha256_hash, mime_type, file_bytes.length,
             fs2, !already⟩

/-! ## Multimodal composition (`_compose_user_text_with_file_context`,
`_build_user_content_for_model`)

`read_file` abstracts `open(stored_path, "rb").read()` — `none` models the
`except` branch, i.e. an unreadable path. -/

/-- A `conversation_files` row as the composition code reads it (`dict.get`
semantics: absent/NULL columns are `none`). -/
structure FileRec where
  id : Option String
  original_name : Option String
  stored_path : Option String
  mime_type : Option String
  size_bytes : Option Int
  extracted_text : Option String
deriving DecidableEq

/-- `str(f.get("original_name") or "file")`. -/
def file_display_name (f : FileRec) : String :=
  match f.original_name with
  | none => "file"
  | some n => if n = "" then "file" else n

/-- Python `sep.join(xs)`. -/
def pyJoin (sep : String) : List String → String
  | [] => ""
  | [x] => x
  | x :: y :: xs => x ++ sep ++ pyJoin sep (y :: xs)

/-- `_compose_user_text_with_file_context` (lines 730-747). -/
def compose_user_text_with_file_context (user_text : String) (files : List FileRec) :
    String :=
  let text_blocks := files.filterMap (fun f =>
    match f.extracted_text with
    | none => none
    | some e0 =>
      let e := pyStrip e0
      if e = "" then none
      else some ("[File: " ++ file_display_name f ++ "]\n" ++ e))
  if text_blocks = [] then user_text
  else
    let context_text := pyJoin "\n\n" text_blocks
    if user_text = "" then context_text else context_text ++ "\n\n" ++ user_text

/-- Standard base64 alphabet lookup. -/
def b64_digit (n : Nat) : Char :=
  if n < 26 then Char.ofNat (65 + n)
  else if n < 52 then Char.ofNat (97 + (n - 26))
  else if n < 62 then Char.ofNat (48 + (n - 52))
  else if n = 62 then '+'
  else '/'

/-- `base64.b64encode` (used at line 770), three bytes at a time. -/
def b64_encode_chars : List UInt8 → List Char
  | [] => []
  | [a] =>
    let x := a.toNat
    [b64_digit (x / 4), b64_digit (x % 4 * 16), '=', '=']
  | [a, b] =>
    let x := a.toNat * 256 + b.toNat
    [b64_digit (x / 1024), b64_digit (x / 16 % 64), b64_digit (x % 16 * 4), '=']
  | a :: b :: c :: rest =>
    let x := a.toNat * 65536 + b.toNat * 256 + c.toNat
    b64_digit (x / 262144) :: b64_digit (x / 4096 % 64) :: b64_digit (x / 64 % 64)
      :: b64_digit (x % 64) :: b64_encode_chars rest

def b64_encode (bs : List UInt8) : String := ⟨b64_encode_chars bs⟩

/-- The image part built at lines 767-772 for one readable, non-empty image
file: `{type: image_url, image_url: {url: data:{mime};base64,{...}}}`. -/
def image_part_of (mime_type : String) (raw : List UInt8) : ContentPart :=
  .image_url ("data:" ++ mime_type ++ ";base64," ++ b64_encode raw)

/-- The image-part extraction loop of `_build_user_content_for_model`
(lines 752-772). -/
def image_parts_of (read_file : String → Option (List UInt8)) (files : List FileRec) :
    List ContentPart :=
  files.filterMap (fun f =>
    let mime_type := (f.mime_type.getD "")
    if ¬ mime_type ∈ ALLOWED_IMAGE_TYPES then none
    else
      let stored_path := (f.stored_path.getD "")
      if stored_path = "" then none
      else
        match read_file stored_path with
        | none => none
        | some raw => if raw = [] then none else some (image_part_of mime_type raw))

/-- `_build_user_content_for_model` (lines 750-780). -/
def build_user_content_for_model (read_file : String → Option (List UInt8))
    (user_text : String) (files : List FileRec) : MsgContent :=
  let text_with_context := compose_user_text_with_file_context user_text files
  let image_parts := image_parts_of read_file files
  if image_parts = [] then .str text_with_context
  else
    let text_part0 := pyStrip text_with_context
    let text_part := if text_part0 = "" then "Please analyze the attached image(s)."
                     else text_part0
    .parts (ContentPart.text text_part :: image_parts)

/-! ## A model of Python's `json` module, as `_encode_message_content_with_meta`
and `_safe_json_loads_object` use it

`json.dumps(..., ensure_ascii=False)` with the default separators `", "` and
`": "`; `json.loads` as a fuel-indexed recursive-descent parser.  The number
grammar is restricted to integers — the only numbers the message-meta object
ever contains — and the parser accepts a (harmless) superset of leading-zero
integers. -/

inductive PyJson where
  | null
  | bool (b : Bool)
  | int (n : Int)
  | str (s : String)
  | arr (items : List PyJson)
  | obj (members : List (String × PyJson))

def lbraceChar : Char := Char.ofNat 123
def rbraceChar : Char := Char.ofNat 125

def decDigitChar (d : Nat) : Char := Char.ofNat (48 + d)

def hexDigitChar (d : Nat) : Char :=
  if d < 10 then Char.ofNat (48 + d) else Char.ofNat (87 + d)

/-- Decimal digits of a natural number, most significant first (fuel-indexed
so that it reduces definitionally; `natChars` supplies adequate fuel). -/
def natCharsAux : Nat → Nat → List Char
  | 0, _ => []
  | fuel + 1, n =>
    if n < 10 then [decDigitChar n]
    else natCharsAux fuel (n / 10) ++ [decDigitChar (n % 10)]

def natChars (n : Nat) : List Char := natCharsAux (n + 1) n

def intChars (i : Int) : List Char :=
  if i < 0 then '-' :: natChars i.natAbs else natChars i.natAbs

/-- One character as `json.dumps(..., ensure_ascii=False)` emits it: quote,
backslash and control characters are escaped, everything else is verbatim. -/
def jsonEscape (c : Char) : List Char :=
  if c = '"' then ['\\', '"']
  else if c = '\\' then ['\\', '\\']
  else if c = '\n' then ['\\', 'n']
  else if c = '\r' then ['\\', 'r']
  else if c = '\t' then ['\\', 't']
  else if c.toNat = 8 then ['\\', 'b']
  else if c.toNat = 12 then ['\\', 'f']
  else if c.toNat < 32 then
    ['\\', 'u', '0', '0', hexDigitChar (c.toNat / 16), hexDigitChar (c.toNat % 16)]
  else [c]

def dumpsStr (s : String) : List Char :=
  '"' :: (s.data.flatMap jsonEscape ++ ['"'])

mutual
/-- `json.dumps(v, ensure_ascii=False)`. -/
def dumpsJ : PyJson → List Char
  | .null => "null".data
  | .bool true => "true".data
  | .bool false => "false".data
  | .int n => intChars n
  | .str s => dumpsStr s
  | .arr items => '[' :: (dumpsItems items ++ [']'])
  | .obj members => lbraceChar :: (dumpsMembers members ++ [rbraceChar])

def dumpsItems : List PyJson → List Char
  | [] => []
  | [x] => dumpsJ x
  | x :: y :: xs => dumpsJ x ++ ',' :: ' ' :: dumpsItems (y :: xs)

def dumpsMembers : List (String × PyJson) → List Char
  | [] => []
  | [(k, v)] => dumpsStr k ++ ':' :: ' ' :: dumpsJ v
  | (k, v) :: m :: ms => dumpsStr k ++ ':' :: ' ' :: dumpsJ v ++ ',' :: ' ' :: dumpsMembers (m :: ms)
end

def jsonWsChar (c : Char) : Bool := c == ' ' || c == '\t' || c == '\n' || c == '\r'

def dropJsonWs (cs : List Char) : List Char := cs.dropWhile jsonWsChar

def hexDigitVal (c : Char) : Option Nat :=
  if '0' ≤ c ∧ c ≤ '9' then some (c.toNat - 48)
  else if 'a' ≤ c ∧ c ≤ 'f' then some (c.toNat - 87)
  else if 'A' ≤ c ∧ c ≤ 'F' then some (c.toNat - 55)
  else none

def jsonUnescape (c : Char) : Option Char :=
  if c = '"' then some '"'
  else if c = '\\' then some '\\'
  else if c = '/' then some '/'
  else if c = 'n' then some '\n'
  else if c = 'r' then some '\r'
  else if c = 't' then some '\t'
  else if c = 'b' then some (Char.ofNat 8)
  else if c = 'f' then some (Char.ofNat 12)
  else none

mutual
/-- String body after the opening quote; strict mode, so raw control
characters are rejected. -/
def parseJStrBody : (cs : List Char) → Option (List Char × List Char)
  | [] => none
  | c :: rest =>
    if c = '"' then some ([], rest)
    else if c = '\\' then parseJEsc rest
    else if c.toNat < 32 then none
    else (parseJStrBody rest).map (fun p => (c :: p.1, p.2))

/-- One escape sequence after a backslash, then the rest of the body. -/
def parseJEsc : (cs : List Char) → Option (List Char × List Char)
  | [] => none
  | e :: rest2 =>
    if e = 'u' then
      match rest2 with
      | a :: b :: c2 :: d :: rest3 =>
        (match hexDigitVal a, hexDigitVal b, hexDigitVal c2, hexDigitVal d with
         | some va, some vb, some vc, some vd =>
           (parseJStrBody rest3).map
             (fun p => (Char.ofNat (((va * 16 + vb) * 16 + vc) * 16 + vd) :: p.1, p.2))
         | _, _, _, _ => none)
      | _ => none
    else
      match jsonUnescape e with
      | some ch => (parseJStrBody rest2).map (fun p => (ch :: p.1, p.2))
      | none => none
end

/-- A complete string literal body, as a `String`. -/
def parseJStr (cs : List Char) : Option (String × List Char) :=
  (parseJStrBody cs).map (fun p => ((⟨p.1⟩ : String), p.2))

def digitsVal (ds : List Char) : Nat :=
  ds.foldl (fun a c => a * 10 + (c.toNat - 48)) 0

def parseJNat (cs : List Char) : Option (Nat × List Char) :=
  let ds := cs.takeWhile (fun c => c.isDigit)
  if ds = [] then none else some (digitsVal ds, cs.dropWhile (fun c => c.isDigit))

def parseJInt (cs : List Char) : Option (Int × List Char) :=
  match cs with
  | [] => none
  | c :: rest =>
    if c = '-' then (parseJNat rest).map (fun p => (-(p.1 : Int), p.2))
    else (parseJNat (c :: rest)).map (fun p => ((p.1 : Int), p.2))

mutual
/-- `json.loads` value grammar, fuel-indexed for totality. -/
def parseJVal : Nat → List Char → Option (PyJson × List Char)
  | 0, _ => none
  | fuel + 1, cs =>
    match dropJsonWs cs with
    | [] => none
    | c :: r =>
      if c = 'n' then
        match r with
        | 'u' :: 'l' :: 'l' :: r2 => some (.null, r2)
        | _ => none
      else if c = 't' then
        match r with
        | 'r' :: 'u' :: 'e' :: r2 => some (.bool true, r2)
        | _ => none
      else if c = 'f' then
        match r with
        | 'a' :: 'l' :: 's' :: 'e' :: r2 => some (.bool false, r2)
        | _ => none
      else if c = '"' then
        (parseJStr r).map (fun p => (.str p.1, p.2))
      else if c = '[' then
        match dropJsonWs r with
        | [] => none
        | c2 :: r2 =>
          if c2 = ']' then some (.arr [], r2)
          else (parseJItems fuel (c2 :: r2)).map (fun p => (.arr p.1, p.2))
      else if c = lbraceChar then
        match dropJsonWs r with
        | [] => none
        | c2 :: r2 =>
          if c2 = rbraceChar then some (.obj [], r2)
          else (parseJMembers fuel (c2 :: r2)).map (fun p => (.obj p.1, p.2))
      else if c.isDigit ∨ c = '-' then
        (parseJInt (c :: r)).map (fun p => (.int p.1, p.2))
      else none

def parseJItems : Nat → List Char → Option (List PyJson × List Char)
  | 0, _ => none
  | fuel + 1, cs =>
    match parseJVal fuel cs with
    | none => none
    | some (v, r) =>
      match dropJsonWs r with
      | [] => none
      | c :: r2 =>
        if c = ',' then (parseJItems fuel r2).map (fun p => (v :: p.1, p.2))
        else if c = ']' then some ([v], r2)
        else none

def parseJMembers : Nat → List Char → Option (List (String × PyJson) × List Char)
  | 0, _ => none
  | fuel + 1, cs =>
    match dropJsonWs cs with
    | [] => none
    | c :: r =>
      if c = '"' then
        match parseJStr r with
        | none => none
        | some (k, r1) =>
          match dropJsonWs r1 with
          | [] => none
          | c1 :: r2 =>
            if c1 = ':' then
              match parseJVal fuel r2 with
              | none => none
              | some (v, r3) =>
                match dropJsonWs r3 with
                | [] => none
                | c3 :: r4 =>
                  if c3 = ',' then
                    (parseJMembers fuel r4).map (fun p => ((k, v) :: p.1, p.2))
                  else if c3 = rbraceChar then some ([(k, v)], r4)
                  else none
            else none
      else none
end

/-- `json.loads`: one top-level value, nothing but whitespace after it. -/
def json_loads (s : String) : Option PyJson :=
  match parseJVal (s.data.length + 1) s.data with
  | some (v, r) => if dropJsonWs r = [] then some v else none
  | none => none

/-- `_safe_json_loads_object` (lines 460-469): blank or unparsable or
non-object input collapses to the empty dict. -/
def safe_json_loads_object (s : String) : List (String × PyJson) :=
  if pyStrip s = "" then []
  else
    match json_loads s with
    | some (.obj members) => members
    | _ => []

/-- Python `dict.get` on a parsed JSON object. -/
def json_object_get (members : List (String × PyJson)) (k : String) : Option PyJson :=
  (members.find? (fun kv => kv.1 = k)).map (fun kv => kv.2)

/-! ## The message-meta sentinel codec (`_parse_message_content_with_meta`,
`_encode_message_content_with_meta`, `_normalize_file_ids`) -/

/-- `_MESSAGE_META_PREFIX` in the source (renamed here only because of this
file's identifier conventions). -/
def MESSAGE_META_OPEN : String := "[[MESSAGE_META]]"

/-- `_MESSAGE_META_SUFFIX` in the source. -/
def MESSAGE_META_CLOSE : String := "[[/MESSAGE_META]]"

def MAX_FILE_ATTACHMENTS_PER_MESSAGE : Nat := 10

/-- Search for `pat` in a character list, first match wins (`str.find`). -/
def findSubAux (pat : List Char) : List Char → Nat → Option Nat
  | [], i => if pat = [] then some i else none
  | c :: rest, i =>
    if pat.isPrefixOf (c :: rest) then some i else findSubAux pat rest (i + 1)

/-- Python `s.find(pat, start)` (with `none` for `-1`). -/
def str_find_from (s pat : String) (start : Nat) : Option Nat :=
  (findSubAux pat.data (s.data.drop start) 0).map (fun k => k + start)

/-- `_parse_message_content_with_meta` (lines 505-519). -/
def parse_message_content_with_meta (raw_content : String) :
    String × List (String × PyJson) :=
  if MESSAGE_META_OPEN.data.isPrefixOf raw_content.data then
    let start := MESSAGE_META_OPEN.length
    match str_find_from raw_content MESSAGE_META_CLOSE start with
    | some e =>
      if start < e then
        let meta_json : String := ⟨(raw_content.data.drop start).take (e - start)⟩
        let meta := safe_json_loads_object meta_json
        let body : String := ⟨raw_content.data.drop (e + MESSAGE_META_CLOSE.length)⟩
        (body, meta)
      else (raw_content, [])
    | none => (raw_content, [])
  else (raw_content, [])

/-- The accumulator loop of `_normalize_file_ids` (lines 484-495): strip,
reject empties, deduplicate preserving order. -/
def normalize_ids_go (acc : List String) : List String → Except ApiError (List String)
  | [] => .ok acc
  | item :: rest =>
    let fid := pyStrip item
    if fid = "" then .error ⟨400, "file_ids must not contain empty values"⟩
    else if fid ∈ acc then normalize_ids_go acc rest
    else normalize_ids_go (acc ++ [fid]) rest

/-- `_normalize_file_ids` (lines 478-502); the input is typed as a string
list (the handler rejects non-list and non-string items with the same 400
before this logic is reached). -/
def normalize_file_ids (value : List String) : Except ApiError (List String) :=
  match normalize_ids_go [] value with
  | .error e => .error e
  | .ok out =>
    if out.length > MAX_FILE_ATTACHMENTS_PER_MESSAGE then
      .error ⟨400, "too many files attached"⟩
    else .ok out

/-- Python string interpolation of an optional value (`None` prints as
"None"), as `f"/v1/files/{f.get('id')}"` uses it. -/
def pyStrOfOptStr : Option String → String
  | none => "None"
  | some s => s

/-- One element of the `files` card list built at lines 527-537. -/
def file_card_json (f : FileRec) : PyJson :=
  .obj [("id", .str (f.id.getD "")),
        ("name", .str (f.original_name.getD "")),
        ("size", .int (f.size_bytes.getD 0)),
        ("type", .str (f.mime_type.getD "")),
        ("url", .str ("/v1/files/" ++ pyStrOfOptStr f.id))]

/-- The member list of one file card, for reasoning about its rendering. -/
def file_card_members (f : FileRec) : List (String × PyJson) :=
  [("id", .str (f.id.getD "")),
   ("name", .str (f.original_name.getD "")),
   ("size", .int (f.size_bytes.getD 0)),
   ("type", .str (f.mime_type.getD "")),
   ("url", .str ("/v1/files/" ++ pyStrOfOptStr f.id))]

/-- The meta object `{"file_ids": ..., "files": ...}` (line 539). -/
def meta_json_of (clean_ids : List String) (files : List FileRec) : PyJson :=
  .obj [("file_ids", .arr (clean_ids.map .str)),
        ("files", .arr (files.map file_card_json))]

/-- `_encode_message_content_with_meta` (lines 522-540). -/
def encode_message_content_with_meta (text : String) (file_ids : List String)
    (files : List FileRec) : Except ApiError String :=
  match normalize_file_ids file_ids with
  | .error e => .error e
  | .ok clean_ids =>
    if clean_ids = [] then .ok text
    else
      .ok (MESSAGE_META_OPEN ++ (⟨dumpsJ (meta_json_of clean_ids files)⟩ : String)
           ++ MESSAGE_META_CLOSE ++ text)

/-- Spec-side formulation of "deduplicated preserving order". -/
def dedup_preserving_order (xs : List String) : List String :=
  xs.foldl (fun acc x => if x ∈ acc then acc else acc ++ [x]) []

/-- A "plain" string for the round-trip statement: ordinary printable
characters — no quote, no backslash, no control characters (so JSON renders
it verbatim), and no `'['` (so it cannot fabricate the sentinel suffix). -/
def plain_json_str (s : String) : Bool :=
  s.data.all (fun c => !(c = '"') && !(c = '\\') && decide (32 ≤ c.toNat) && !(c = '['))

/-- All string material a `FileRec` contributes to the meta JSON is plain. -/
def plain_file_rec (f : FileRec) : Bool :=
  plain_json_str (f.id.getD "") && plain_json_str (f.original_name.getD "")
    && plain_json_str (f.mime_type.getD "") && plain_json_str (pyStrOfOptStr f.id)

/-- Two adjacent `'['` characters (the only way the sentinel suffix
`[[/MESSAGE_META]]` can begin inside a string). -/
def hasDoubleLBrack : List Char → Bool
  | [] => false
  | [_] => false
  | a :: b :: r => (a = '[' && b = '[') || hasDoubleLBrack (b :: r)

/-! ## Spec-side characterizations used by the claim statements -/

/-- Does a trace open an upstream stream / invoke a provider? -/
def opens_upstream (tr : List StreamAct) : Bool :=
  tr.any (fun a => match a with | .open_stream _ => true | _ => false)

/-- Does a trace touch the daily usage counters? -/
def bumps_usage (tr : List StreamAct) : Bool :=
  tr.any (fun a => match a with | .bump_usage _ _ => true | _ => false)

/-- Spec-side: a path that lies directly inside `root`: one more non-empty,
slash-free, non-dot component. -/
def path_within_dir (root p : String) : Prop :=
  ∃ nm : String, p = root ++ "/" ++ nm ∧ nm ≠ "" ∧ nm ≠ "." ∧ nm ≠ ".."
    ∧ '/' ∉ nm.data

/-- Spec-side: does this file contribute a `[File: …]` context block? -/
def has_context_block (f : FileRec) : Bool :=
  match f.extracted_text with
  | some e => pyStrip e ≠ ""
  | none => false

/-- Spec-side: the context block of one file. -/
def context_block_of (f : FileRec) : String :=
  "[File: " ++ file_display_name f ++ "]\n" ++ pyStrip (f.extracted_text.getD "")

/-- Spec-side composition, written as the (amended) spec words it: one block
per file with non-empty (stripped) extracted text, blocks and the user's
non-empty text joined by blank lines. -/
def spec_compose (user_text : String) (files : List FileRec) : String :=
  let blocks := (files.filter has_context_block).map context_block_of
  if blocks.isEmpty then user_text
  else
    pyJoin "\n\n" (blocks ++ (if user_text = "" then [] else [user_text]))

/-- Spec-side: is this file an attached image whose stored bytes are readable
and non-empty? -/
def is_attached_image (read_file : String → Option (List UInt8)) (f : FileRec) : Bool :=
  decide ((f.mime_type.getD "") ∈ ALLOWED_IMAGE_TYPES)
    && decide ((f.stored_path.getD "") ≠ "")
    && (match read_file (f.stored_path.getD "") with
        | some raw => decide (raw ≠ [])
        | none => false)

/-- Spec-side: one `image_url` part per attached readable image, in order. -/
def spec_image_parts (read_file : String → Option (List UInt8))
    (files : List FileRec) : List ContentPart :=
  (files.filter (is_attached_image read_file)).map
    (fun f => image_part_of (f.mime_type.getD "") ((read_file (f.stored_path.getD "")).getD []))

/-- Projections out of an upload result, for stating concrete facts without
binders. -/
def upload_ok_path (r : Except ApiError UploadOut) : String :=
  match r with | .ok o => o.stored_path | .error _ => ""

def upload_ok_wrote (r : Except ApiError UploadOut) : Bool :=
  match r with | .ok o => o.wrote | .error _ => false

def upload_ok_fs (r : Except ApiError UploadOut) : UploadFs :=
  match r with | .ok o => o.fs | .error _ => []

/-- Decidable equality for `Except`, so that closed facts about handler
results can be settled by `decide`. -/
instance exceptDecEq {ε α : Type} [DecidableEq ε] [DecidableEq α] :
    DecidableEq (Except ε α)
  | .error a, .error b =>
    if h : a = b then .isTrue (h ▸ rfl) else .isFalse (fun hh => h (by injection hh))
  | .error _, .ok _ => .isFalse (fun hh => Except.noConfusion hh)
  | .ok _, .error _ => .isFalse (fun hh => Except.noConfusion hh)
  | .ok a, .ok b =>
    if h : a = b then .isTrue (h ▸ rfl) else .isFalse (fun hh => h (by injection hh))

/-! # Theorems

Helper lemmas first, then one theorem per claim (with its witness or
counterexample where required). -/

/-- Folding token counts over parts starting from `t` adds the text parts'
estimates. -/
theorem foldl_part_approx (ps : List ContentPart) :
    ∀ t : Nat, ps.foldl (fun t p => t + part_approx p) t
      = t + ((text_parts ps).map approx_tokens).sum := by
  induction ps with
  | nil => intro t; simp [text_parts]
  | cons p ps ih =>
    intro t
    rw [List.foldl_cons, ih]
    cases p with
    | text s => simp [part_approx, text_parts]; omega
    | image_url u => simp [part_approx, text_parts]

/-- An empty string is exactly a string of length zero. -/
theorem string_length_eq_zero_iff (s : String) : s.length = 0 ↔ s = "" := by
  cases s with
  | mk data =>
    cases data with
    | nil => simp [String.length]
    | cons c cs =>
      simp only [String.length]
      constructor
      · intro h; simp at h
      · intro h
        have : (String.mk (c :: cs)).data = ("" : String).data := by rw [h]
        simp at this

/-- C5 counterexample: on the empty string the estimator returns `0`, not
`max(1, ceil(0/4)) = 1` as the claim states. -/
theorem claim5_counterexample : ¬ (approx_tokens "" = spec_approx_tokens "") := by
  decide

/-- C5 (amended): for every **non-empty** string the estimator agrees with
`max(1, ceil(len/4))` (on the empty string it returns 0); and for a message
whose content is a part list, the estimate is the sum of the estimates of its
text parts only. -/
theorem claim5_approx_tokens_amended :
    (∀ s : String, s ≠ "" → approx_tokens s = spec_approx_tokens s)
    ∧ approx_tokens "" = 0
    ∧ (∀ (role : String) (ps : List ContentPart),
        messages_approx_tokens [⟨role, .parts ps⟩]
          = ((text_parts ps).map approx_tokens).sum) := by
  refine ⟨?_, by decide, ?_⟩
  · intro s hs
    have hl : s.length ≠ 0 := fun h => hs ((string_length_eq_zero_iff s).mp h)
    simp only [approx_tokens, spec_approx_tokens, if_neg hl]
    have h4 : (s.length + 3) / 4
        = (if s.length % 4 = 0 then s.length / 4 else s.length / 4 + 1) := by
      by_cases h : s.length % 4 = 0
      · rw [if_pos h]; omega
      · rw [if_neg h]; omega
    rw [h4]
  · intro role ps
    simp [messages_approx_tokens, foldl_part_approx]

/-- C5 witness: the amended equality evaluated on a 5-character string. -/
theorem claim5_witness : approx_tokens "abcde" = spec_approx_tokens "abcde" :=
  claim5_approx_tokens_amended.1 "abcde" (by decide)

/-- C3 counterexample: with `expires_at = 8·86400` and `now = 86400`
(i.e. `now = expires_at − 7 days`, which the claim says is allowed), the
refresh gate rejects with 400, because the code requires
`expires_at − now < 7 days` strictly. -/
theorem claim3_counterexample :
    auth_refresh_gate "active" (some "user1") (some (8 * 86400)) 86400
      = .error ⟨400, "refresh only allowed in the last 7 days"⟩ := by
  decide

/-- C3 (amended): for an active, user-linked token with positive
`expires_at`, the refresh gate accepts exactly when `now < expires_at` and
`expires_at − now < 7 days` **strictly** — so refresh at
`expires_at − 7 days` is rejected, at `expires_at − 7 days + 1 s` and later
(until expiry) it is allowed, and at `now ≥ expires_at` it is rejected. -/
theorem claim3_refresh_window_amended :
    ∀ (uid : String) (exp now : Int), uid ≠ "" → 0 < exp →
      (auth_refresh_gate "active" (some uid) (some exp) now = .ok ()
        ↔ now < exp ∧ exp - now < TOKEN_REFRESH_WINDOW_SECONDS) := by
  intro uid exp now huid hexp
  simp only [auth_refresh_gate, TOKEN_REFRESH_WINDOW_SECONDS]
  rw [if_neg (by simp), if_neg (by simpa using huid), if_neg (by omega)]
  constructor
  · intro h
    by_cases h1 : now ≥ exp
    · rw [if_pos h1] at h; exact absurd h (by simp)
    · rw [if_neg h1] at h
      by_cases h2 : exp - now ≥ 7 * 86400
      · rw [if_pos h2] at h; exact absurd h (by simp)
      · exact ⟨by omega, by omega⟩
  · intro ⟨h1, h2⟩
    rw [if_neg (by omega), if_neg (by omega)]

/-- C3 witness: a refresh one second inside the window is accepted. -/
theorem claim3_witness :
    auth_refresh_gate "active" (some "u") (some 604800) 1 = .ok () :=
  (claim3_refresh_window_amended "u" 604800 1 (by decide) (by decide)).mpr
    ⟨by decide, by decide⟩

/-- C7 counterexample: a token row with `expires_at = 0` and `now = 100 ≥ 0`
passes `_require_user` (the claim says any `now ≥ expires_at` must fail with
401, "in particular also when expires_at ≤ 0"). -/
theorem claim7_counterexample :
    require_user_gate (some ⟨"free", "active", some "u1", some 0⟩) (fun _ => true) 100
      = .ok () := by
  decide

/-- C7 (amended): expiry is enforced only for **positive** `expires_at`: for
any token row with `expires_at = exp > 0` and any `now ≥ exp`, the request
fails with 401 regardless of the row's status or user link — both in
`_require_user` (401 "token expired") and via `_get_token_row`, which treats
the row as absent so `_get_tier_for_token` fails 401 "invalid token".  A
non-positive `expires_at` never expires. -/
theorem claim7_expiry_amended :
    ∀ (row : DeviceTokenRow) (user_exists : String → Bool) (now exp : Int),
      row.expires_at = some exp → 0 < exp → now ≥ exp →
      require_user_gate (some row) user_exists now = .error ⟨401, "token expired"⟩
      ∧ get_token_row (some row) now = none
      ∧ get_tier_for_token (some row) now = .error ⟨401, "invalid token"⟩ := by
  intro row user_exists now exp hexp hpos hnow
  have hc : (0 < exp ∧ now ≥ exp) := ⟨hpos, hnow⟩
  refine ⟨?_, ?_, ?_⟩
  · simp only [require_user_gate, hexp]
    rw [if_pos (by simpa using hc)]
  · simp only [get_token_row, hexp]
    rw [if_pos hc]
  · simp only [get_tier_for_token, get_token_row, hexp]
    rw [if_pos hc]

/-- C7 witness: a disabled, user-less token with `expires_at = 5` at
`now = 7` fails 401 (not 403) on all three paths. -/
theorem claim7_witness :
    require_user_gate (some ⟨"free", "disabled", none, some 5⟩) (fun _ => false) 7
      = .error ⟨401, "token expired"⟩ :=
  (claim7_expiry_amended ⟨"free", "disabled", none, some 5⟩ (fun _ => false) 7 5
    rfl (by decide) (by decide)).1

/-- `call_llm_core` (everything after the forced-provider gate) never fails
with 403: its only error statuses are 500 and 429. -/
theorem call_llm_core_not_403 (mock_mode : Bool) (has_key : Provider → Bool)
    (upstream : Provider → List ChatMsg → Nat → UpstreamReply)
    (tier : Tier) (provider : Provider) (req_max_tokens : Option Int)
    (messages : List ChatMsg) (usage : DailyUsage) (d : String) :
    (call_llm_core mock_mode has_key upstream tier provider req_max_tokens
        messages usage).result ≠ .error ⟨403, d⟩ := by
  simp only [call_llm_core]
  split
  · simp
  · split
    · simp
    · split
      · split
        · simp
        · simp
      · simp

/-- C10 (confirmed): a forced-provider chat request is permitted exactly when
`tier_level(forced) ≤ tier_level(token tier)`; otherwise it fails with 403
"tier not allowed", makes no upstream call, and leaves usage unchanged. -/
theorem claim10_forced_provider_gate
    (mock_mode : Bool) (has_key : Provider → Bool)
    (upstream : Provider → List ChatMsg → Nat → UpstreamReply)
    (tier : Tier) (f : Provider) (req_max_tokens : Option Int)
    (messages : List ChatMsg) (usage : DailyUsage) :
    ((call_llm mock_mode has_key upstream tier (some f) req_max_tokens
        messages usage).result = .error ⟨403, "tier not allowed"⟩
      ↔ TIER_LEVEL (forced_provider_min_tier f) > TIER_LEVEL tier)
    ∧ (TIER_LEVEL (forced_provider_min_tier f) > TIER_LEVEL tier →
        (call_llm mock_mode has_key upstream tier (some f) req_max_tokens
            messages usage).usage = usage
        ∧ (call_llm mock_mode has_key upstream tier (some f) req_max_tokens
            messages usage).upstream_calls = 0) := by
  simp only [call_llm]
  by_cases hgt : TIER_LEVEL (forced_provider_min_tier f) > TIER_LEVEL tier
  · rw [if_pos hgt]
    exact ⟨⟨fun _ => hgt, fun _ => rfl⟩, fun _ => ⟨rfl, rfl⟩⟩
  · rw [if_neg hgt]
    refine ⟨⟨fun h => absurd h (call_llm_core_not_403 mock_mode has_key upstream tier
              f req_max_tokens messages usage "tier not allowed"),
            fun h => absurd h hgt⟩,
            fun h => absurd h hgt⟩

/-- C10 witness: a free-tier token forcing `kimi` (level 1 > 0) is rejected
with 403 and nothing is charged or called. -/
theorem claim10_witness :
    (call_llm true (fun _ => true) (fun _ _ _ => ⟨"", 0⟩) .free (some .kimi) none
        [] ⟨0, 0, 0⟩).result = .error ⟨403, "tier not allowed"⟩
    ∧ (call_llm true (fun _ => true) (fun _ _ _ => ⟨"", 0⟩) .free (some .kimi) none
        [] ⟨0, 0, 0⟩).usage = ⟨0, 0, 0⟩ :=
  ⟨(claim10_forced_provider_gate true (fun _ => true) (fun _ _ _ => ⟨"", 0⟩)
      .free .kimi none [] ⟨0, 0, 0⟩).1.mpr (by decide),
   ((claim10_forced_provider_gate true (fun _ => true) (fun _ _ _ => ⟨"", 0⟩)
      .free .kimi none [] ⟨0, 0, 0⟩).2 (by decide)).1⟩

/-- C2 (confirmed): when the daily counters plus the approximate prompt
tokens of the truncated message list exceed the tier's daily budget, both the
one-shot `_call_llm` path and the streaming generator fail with
"daily quota exceeded" (429 / a terminal `done:true` SSE error event), no
upstream call is made, and the usage counters are unchanged.  (For the
one-shot path the upstream key must be configured, since that 500-check
precedes the quota gate there.) -/
theorem claim2_quota_gate
    (mock_mode : Bool) (has_key : Provider → Bool)
    (upstream : Provider → List ChatMsg → Nat → UpstreamReply)
    (tier : Tier) (forced : Option Provider) (req_max_tokens : Option Int)
    (messages : List ChatMsg) (usage : DailyUsage) (mid : String)
    (hforce : ∀ f, forced = some f →
      TIER_LEVEL (forced_provider_min_tier f) ≤ TIER_LEVEL tier)
    (hkey : mock_mode = true
      ∨ has_key (forced.getD (default_provider_for_tier tier)) = true)
    (hq : usage.prompt_tokens + usage.completion_tokens
        + messages_approx_tokens
            (truncate_messages_to_fit messages (LIMITS tier).max_context_tokens)
        > (LIMITS tier).daily_tokens) :
    (call_llm mock_mode has_key upstream tier forced req_max_tokens messages usage).result
        = .error ⟨429, "daily quota exceeded"⟩
    ∧ (call_llm mock_mode has_key upstream tier forced req_max_tokens messages usage).usage
        = usage
    ∧ (call_llm mock_mode has_key upstream tier forced req_max_tokens messages usage).upstream_calls
        = 0
    ∧ (∀ ups, stream_gen mock_mode has_key tier messages usage mid ups
        = [.emit quota_frame])
    ∧ (∀ ups, opens_upstream (stream_gen mock_mode has_key tier messages usage mid ups)
        = false)
    ∧ (∀ ups, bumps_usage (stream_gen mock_mode has_key tier messages usage mid ups)
        = false) := by
  have hkey' : ¬(¬mock_mode = true
      ∧ ¬has_key (forced.getD (default_provider_for_tier tier)) = true) := by
    rcases hkey with h | h <;> simp [h]
  have hcore : call_llm_core mock_mode has_key upstream tier
      (forced.getD (default_provider_for_tier tier)) req_max_tokens messages usage
      = ⟨.error ⟨429, "daily quota exceeded"⟩, usage, 0⟩ := by
    simp only [call_llm_core]
    rw [if_neg (by simpa using hkey'), if_pos hq]
  have hcall : call_llm mock_mode has_key upstream tier forced req_max_tokens
      messages usage = ⟨.error ⟨429, "daily quota exceeded"⟩, usage, 0⟩ := by
    cases forced with
    | none => simpa [call_llm] using hcore
    | some f =>
      have hle := hforce f rfl
      simp only [call_llm]
      rw [if_neg (by omega)]
      simpa using hcore
  have hstream : ∀ ups, stream_gen mock_mode has_key tier messages usage mid ups
      = [.emit quota_frame] := by
    intro ups
    simp only [stream_gen]
    rw [if_pos hq]
  refine ⟨by rw [hcall], by rw [hcall], by rw [hcall], hstream, ?_, ?_⟩
  · intro ups; rw [hstream ups]; rfl
  · intro ups; rw [hstream ups]; rfl

/-- C2 witness: a free-tier mock request with counters at the 60000 budget
and a one-token message is rejected with 429 on both paths, uncharged. -/
theorem claim2_witness :
    (call_llm true (fun _ => true) (fun _ _ _ => ⟨"", 0⟩) .free none none
        [⟨"user", .str "h"⟩] ⟨60000, 0, 1⟩).result
      = .error ⟨429, "daily quota exceeded"⟩
    ∧ (call_llm true (fun _ => true) (fun _ _ _ => ⟨"", 0⟩) .free none none
        [⟨"user", .str "h"⟩] ⟨60000, 0, 1⟩).usage = ⟨60000, 0, 1⟩
    ∧ stream_gen true (fun _ => true) .free [⟨"user", .str "h"⟩] ⟨60000, 0, 1⟩ "m1"
        (.ok ["x"]) = [.emit quota_frame] := by
  have h := claim2_quota_gate true (fun _ => true) (fun _ _ _ => ⟨"", 0⟩) .free none
    none [⟨"user", .str "h"⟩] ⟨60000, 0, 1⟩ "m1"
    (fun f hf => by cases hf) (Or.inl rfl) (by decide)
  exact ⟨h.1, h.2.1, h.2.2.2.1 (.ok ["x"])⟩

/-! Helper lemmas about stream traces. -/

theorem events_of_append (a b : List StreamAct) :
    events_of (a ++ b) = events_of a ++ events_of b := by
  simp [events_of]

theorem events_of_nil : events_of [] = [] := rfl

theorem events_of_cons_emit (e : SseData) (l : List StreamAct) :
    events_of (.emit e :: l) = e :: events_of l := rfl

theorem events_of_cons_open (p : Provider) (l : List StreamAct) :
    events_of (.open_stream p :: l) = events_of l := rfl

theorem events_of_cons_persist (m c : String) (l : List StreamAct) :
    events_of (.persist_assistant m c :: l) = events_of l := rfl

theorem events_of_cons_bump (p c : Nat) (l : List StreamAct) :
    events_of (.bump_usage p c :: l) = events_of l := rfl

theorem events_of_map_delta (chars : List Char) :
    events_of (chars.map (fun ch => .emit (delta_frame ch))) = chars.map delta_frame := by
  induction chars with
  | nil => rfl
  | cons c cs ih =>
    simp only [List.map_cons, events_of_cons_emit, ih]

/-- A per-character frame carries exactly its character in `delta` and no
error. -/
theorem delta_frame_fields (ch : Char) :
    (delta_frame ch).delta = some ⟨[ch]⟩ ∧ (delta_frame ch).done = some false
    ∧ (delta_frame ch).error = none := by
  simp [delta_frame]

theorem delta_chars_map (chars : List Char) :
    (chars.map delta_frame).flatMap (fun e => (e.delta.getD "").data) = chars := by
  induction chars with
  | nil => rfl
  | cons c cs ih => simp [delta_frame, ih]

theorem filter_done_false_map_delta (chars : List Char) :
    (chars.map delta_frame).filter (fun e => e.done = some false)
      = chars.map delta_frame := by
  apply List.filter_eq_self.mpr
  intro e he
  obtain ⟨ch, _, rfl⟩ := List.mem_map.mp he
  simp [delta_frame]

theorem filter_error_map_delta (chars : List Char) :
    (chars.map delta_frame).filter (fun e => e.error ≠ none) = [] := by
  apply List.filter_eq_nil_iff.mpr
  intro e he
  obtain ⟨ch, _, rfl⟩ := List.mem_map.mp he
  simp [delta_frame]

/-- The trace of a successful streamed chat, explicitly. -/
theorem stream_gen_ok_eq (mock_mode : Bool) (has_key : Provider → Bool) (tier : Tier)
    (messages : List ChatMsg) (usage : DailyUsage) (mid : String) (items : List String)
    (hq : usage.prompt_tokens + usage.completion_tokens
        + messages_approx_tokens
            (truncate_messages_to_fit messages (LIMITS tier).max_context_tokens)
        ≤ (LIMITS tier).daily_tokens)
    (hkey : mock_mode = true ∨ has_key (default_provider_for_tier tier) = true) :
    stream_gen mock_mode has_key tier messages usage mid (.ok items)
      = .open_stream (default_provider_for_tier tier)
          :: (consumed_chars items).map (fun ch => .emit (delta_frame ch))
          ++ [.persist_assistant mid ⟨consumed_chars items⟩,
              .bump_usage
                (messages_approx_tokens
                  (truncate_messages_to_fit messages (LIMITS tier).max_context_tokens))
                (approx_tokens ⟨consumed_chars items⟩),
              .emit (final_frame mid ⟨consumed_chars items⟩)] := by
  have hkey' : ¬(¬mock_mode = true ∧ ¬has_key (default_provider_for_tier tier) = true) := by
    rcases hkey with h | h <;> simp [h]
  simp only [stream_gen]
  rw [if_neg (by omega), if_neg (by simpa using hkey')]

/-- The trace of a streamed chat whose upstream producer raised, explicitly. -/
theorem stream_gen_failed_eq (mock_mode : Bool) (has_key : Provider → Bool) (tier : Tier)
    (messages : List ChatMsg) (usage : DailyUsage) (mid : String) (items : List String)
    (hq : usage.prompt_tokens + usage.completion_tokens
        + messages_approx_tokens
            (truncate_messages_to_fit messages (LIMITS tier).max_context_tokens)
        ≤ (LIMITS tier).daily_tokens)
    (hkey : mock_mode = true ∨ has_key (default_provider_for_tier tier) = true) :
    stream_gen mock_mode has_key tier messages usage mid (.failed items)
      = .open_stream (default_provider_for_tier tier)
          :: (consumed_chars items).map (fun ch => .emit (delta_frame ch))
          ++ [.emit internal_error_frame] := by
  have hkey' : ¬(¬mock_mode = true ∧ ¬has_key (default_provider_for_tier tier) = true) := by
    rcases hkey with h | h <;> simp [h]
  simp only [stream_gen]
  rw [if_neg (by omega), if_neg (by simpa using hkey')]

/-- C1 (confirmed): on the success path, the concatenation of the `delta`
fields of the `done:false` frames equals the `content` of the final
`done:true` frame, which is exactly the string handed to the assistant-message
persist step, and that persist action strictly precedes the final frame in
the trace. -/
theorem claim1_stream_delta_concat
    (mock_mode : Bool) (has_key : Provider → Bool) (tier : Tier)
    (messages : List ChatMsg) (usage : DailyUsage) (mid : String) (items : List String)
    (tr : List StreamAct) (full : String)
    (htr : tr = stream_gen mock_mode has_key tier messages usage mid (.ok items))
    (hfull : full = ⟨delta_chars_of tr⟩)
    (hq : usage.prompt_tokens + usage.completion_tokens
        + messages_approx_tokens
            (truncate_messages_to_fit messages (LIMITS tier).max_context_tokens)
        ≤ (LIMITS tier).daily_tokens)
    (hkey : mock_mode = true ∨ has_key (default_provider_for_tier tier) = true) :
    ∃ deltas : List StreamAct,
      tr = .open_stream (default_provider_for_tier tier) :: deltas
          ++ [.persist_assistant mid full,
              .bump_usage
                (messages_approx_tokens
                  (truncate_messages_to_fit messages (LIMITS tier).max_context_tokens))
                (approx_tokens full),
              .emit (final_frame mid full)]
      ∧ (∀ a ∈ deltas, ∃ ch, a = .emit (delta_frame ch))
      ∧ (events_of tr).getLast? = some (final_frame mid full)
      ∧ (final_frame mid full).content = some full
      ∧ full.data = consumed_chars items := by
  have heq := stream_gen_ok_eq mock_mode has_key tier messages usage mid items hq hkey
  have hevs : events_of tr
      = (consumed_chars items).map delta_frame ++ [final_frame mid ⟨consumed_chars items⟩] := by
    rw [htr, heq]
    simp only [List.cons_append, events_of_cons_open, events_of_append,
      events_of_map_delta, events_of_cons_persist, events_of_cons_bump,
      events_of_cons_emit, events_of_nil]
  have hchars : delta_chars_of tr = consumed_chars items := by
    simp only [delta_chars_of, hevs, List.filter_append]
    rw [filter_done_false_map_delta]
    have hfinal : ([final_frame mid ⟨consumed_chars items⟩].filter
        (fun e => e.done = some false)) = [] := by
      simp [final_frame]
    rw [hfinal, List.append_nil, delta_chars_map]
  have hfull' : full = ⟨consumed_chars items⟩ := by rw [hfull, hchars]
  refine ⟨(consumed_chars items).map (fun ch => .emit (delta_frame ch)), ?_, ?_, ?_, rfl, ?_⟩
  · rw [htr, heq, hfull']
  · intro a ha
    obtain ⟨ch, _, rfl⟩ := List.mem_map.mp ha
    exact ⟨ch, rfl⟩
  · rw [hevs, hfull', List.getLast?_concat]
  · rw [hfull']

/-- C1 witness: mock-mode stream of `["ab"]`: the final frame's content is
"ab", equal to the per-character deltas and the persisted string. -/
theorem claim1_witness :
    ∃ deltas : List StreamAct,
      stream_gen true (fun _ => true) .free [⟨"user", .str "x"⟩] ⟨0, 0, 0⟩ "m1"
          (.ok ["ab"])
        = .open_stream (default_provider_for_tier .free) :: deltas
          ++ [.persist_assistant "m1"
                ⟨delta_chars_of (stream_gen true (fun _ => true) .free
                  [⟨"user", .str "x"⟩] ⟨0, 0, 0⟩ "m1" (.ok ["ab"]))⟩,
              .bump_usage
                (messages_approx_tokens
                  (truncate_messages_to_fit [⟨"user", .str "x"⟩]
                    (LIMITS .free).max_context_tokens))
                (approx_tokens
                  ⟨delta_chars_of (stream_gen true (fun _ => true) .free
                    [⟨"user", .str "x"⟩] ⟨0, 0, 0⟩ "m1" (.ok ["ab"]))⟩),
              .emit (final_frame "m1"
                ⟨delta_chars_of (stream_gen true (fun _ => true) .free
                  [⟨"user", .str "x"⟩] ⟨0, 0, 0⟩ "m1" (.ok ["ab"]))⟩)]
      ∧ (∀ a ∈ deltas, ∃ ch, a = .emit (delta_frame ch))
      ∧ (events_of (stream_gen true (fun _ => true) .free [⟨"user", .str "x"⟩]
            ⟨0, 0, 0⟩ "m1" (.ok ["ab"]))).getLast?
          = some (final_frame "m1"
              ⟨delta_chars_of (stream_gen true (fun _ => true) .free
                [⟨"user", .str "x"⟩] ⟨0, 0, 0⟩ "m1" (.ok ["ab"]))⟩)
      ∧ (final_frame "m1"
            ⟨delta_chars_of (stream_gen true (fun _ => true) .free
              [⟨"user", .str "x"⟩] ⟨0, 0, 0⟩ "m1" (.ok ["ab"]))⟩).content
          = some ⟨delta_chars_of (stream_gen true (fun _ => true) .free
              [⟨"user", .str "x"⟩] ⟨0, 0, 0⟩ "m1" (.ok ["ab"]))⟩
      ∧ (⟨delta_chars_of (stream_gen true (fun _ => true) .free [⟨"user", .str "x"⟩]
            ⟨0, 0, 0⟩ "m1" (.ok ["ab"]))⟩ : String).data = consumed_chars ["ab"] :=
  claim1_stream_delta_concat true (fun _ => true) .free [⟨"user", .str "x"⟩]
    ⟨0, 0, 0⟩ "m1" ["ab"] _ _ rfl rfl (by decide) (Or.inl rfl)

/-- C4 counterexample: when the upstream producer fails immediately, the
stream's single terminal event is `{"error": "Internal error"}` with **no**
`done` key — not the `{error, done:true}` shape the claim asserts for every
error. -/
theorem claim4_counterexample :
    events_of (stream_gen true (fun _ => true) .free [] ⟨0, 0, 0⟩ "m1" (.failed []))
      = [internal_error_frame]
    ∧ internal_error_frame.done ≠ some true := by
  constructor
  · rfl
  · decide

/-- C4 (amended): every streaming error is surfaced as a single terminal SSE
data event and nothing is thrown to the transport (the generator always
produces a well-formed trace): explicitly yielded errors
(`_sse_error_once` for pre-stream validation, the quota event) have shape
`{error, done:true}`, while exceptions caught by the generator's blanket
handler produce exactly one final `{"error": "Internal error"}` event with no
`done` field; in every trace there is at most one event carrying an `error`
field and it is always the last event. -/
theorem claim4_stream_error_events_amended :
    (∀ m : String, ∃ e : SseData, sse_error_once m = [e] ∧ e.done = some true
      ∧ e.error ≠ none)
    ∧ (∀ (mock_mode : Bool) (has_key : Provider → Bool) (tier : Tier)
        (messages : List ChatMsg) (usage : DailyUsage) (mid : String)
        (ups : UpstreamOutcome),
        (((events_of (stream_gen mock_mode has_key tier messages usage mid ups)).filter
            (fun e => e.error ≠ none)).length ≤ 1)
        ∧ (∀ e ∈ events_of (stream_gen mock_mode has_key tier messages usage mid ups),
            e.error ≠ none →
            (events_of (stream_gen mock_mode has_key tier messages usage mid ups)).getLast?
              = some e))
    ∧ (∀ (mock_mode : Bool) (has_key : Provider → Bool) (tier : Tier)
        (messages : List ChatMsg) (usage : DailyUsage) (mid : String)
        (items : List String),
        (usage.prompt_tokens + usage.completion_tokens
          + messages_approx_tokens
              (truncate_messages_to_fit messages (LIMITS tier).max_context_tokens)
          ≤ (LIMITS tier).daily_tokens) →
        (mock_mode = true ∨ has_key (default_provider_for_tier tier) = true) →
        events_of (stream_gen mock_mode has_key tier messages usage mid (.failed items))
          = (consumed_chars items).map delta_frame ++ [internal_error_frame]
        ∧ internal_error_frame.done = none
        ∧ internal_error_frame.error = some "Internal error") := by
  refine ⟨?_, ?_, ?_⟩
  · intro m
    exact ⟨_, rfl, rfl, by simp⟩
  · intro mock_mode has_key tier messages usage mid ups
    by_cases hq : usage.prompt_tokens + usage.completion_tokens
        + messages_approx_tokens
            (truncate_messages_to_fit messages (LIMITS tier).max_context_tokens)
        > (LIMITS tier).daily_tokens
    · have h : stream_gen mock_mode has_key tier messages usage mid ups
          = [.emit quota_frame] := by
        simp only [stream_gen]; rw [if_pos hq]
      rw [h]
      refine ⟨by simp [events_of, quota_frame], ?_⟩
      intro e he _
      simp only [events_of, List.filterMap_cons, List.filterMap_nil] at he ⊢
      simp at he
      simp [he]
    · by_cases hkey : ¬mock_mode = true ∧ ¬has_key (default_provider_for_tier tier) = true
      · have h : stream_gen mock_mode has_key tier messages usage mid ups
            = [.emit internal_error_frame] := by
          simp only [stream_gen]; rw [if_neg hq, if_pos (by simpa using hkey)]
        rw [h]
        refine ⟨by simp [events_of, internal_error_frame], ?_⟩
        intro e he _
        simp only [events_of, List.filterMap_cons, List.filterMap_nil] at he ⊢
        simp at he
        simp [he]
      · have hkey' : mock_mode = true ∨ has_key (default_provider_for_tier tier) = true := by
          by_cases hm : mock_mode = true
          · exact Or.inl hm
          · exact Or.inr (by_contra fun hk => hkey ⟨hm, hk⟩)
        cases ups with
        | ok items =>
          have hevs : events_of (stream_gen mock_mode has_key tier messages usage mid
              (.ok items)) = (consumed_chars items).map delta_frame
                ++ [final_frame mid ⟨consumed_chars items⟩] := by
            rw [stream_gen_ok_eq mock_mode has_key tier messages usage mid items
              (by omega) hkey']
            simp only [List.cons_append, events_of_cons_open, events_of_append,
              events_of_map_delta, events_of_cons_persist, events_of_cons_bump,
              events_of_cons_emit, events_of_nil]
          rw [hevs]
          constructor
          · rw [List.filter_append, filter_error_map_delta]
            simp [final_frame]
          · intro e he herr
            rcases List.mem_append.mp he with h | h
            · obtain ⟨ch, _, rfl⟩ := List.mem_map.mp h
              exact absurd rfl herr
            · simp only [List.mem_singleton] at h
              subst h
              exact absurd rfl herr
        | failed items =>
          have hevs : events_of (stream_gen mock_mode has_key tier messages usage mid
              (.failed items)) = (consumed_chars items).map delta_frame
                ++ [internal_error_frame] := by
            rw [stream_gen_failed_eq mock_mode has_key tier messages usage mid items
              (by omega) hkey']
            simp only [List.cons_append, events_of_cons_open, events_of_append,
              events_of_map_delta, events_of_cons_persist, events_of_cons_bump,
              events_of_cons_emit, events_of_nil]
          rw [hevs]
          constructor
          · rw [List.filter_append, filter_error_map_delta]
            simp [internal_error_frame]
          · intro e he herr
            rcases List.mem_append.mp he with h | h
            · obtain ⟨ch, _, rfl⟩ := List.mem_map.mp h
              exact absurd rfl herr
            · simp only [List.mem_singleton] at h
              subst h
              exact List.getLast?_concat _
  · intro mock_mode has_key tier messages usage mid items hq hkey
    refine ⟨?_, rfl, rfl⟩
    rw [stream_gen_failed_eq mock_mode has_key tier messages usage mid items hq hkey]
    simp only [List.cons_append, events_of_cons_open, events_of_append,
      events_of_map_delta, events_of_cons_persist, events_of_cons_bump,
      events_of_cons_emit, events_of_nil]

/-- C4 witness: the amended failure-path shape at a concrete input. -/
theorem claim4_witness :
    events_of (stream_gen true (fun _ => true) .free [⟨"user", .str "x"⟩] ⟨0, 0, 0⟩
        "m1" (.failed ["y"]))
      = (consumed_chars ["y"]).map delta_frame ++ [internal_error_frame] :=
  (claim4_stream_error_events_amended.2.2 true (fun _ => true) .free
    [⟨"user", .str "x"⟩] ⟨0, 0, 0⟩ "m1" ["y"] (by decide) (Or.inl rfl)).1

/-! Helper lemmas for the upload pipeline. -/

theorem string_eq_of_data {a b : String} (h : a.data = b.data) : a = b := by
  cases a with
  | mk da =>
    cases b with
    | mk db => cases h; rfl

theorem basename_no_slash (s : String) : '/' ∉ (basename s).data := by
  simp only [basename]
  intro h
  rw [List.mem_reverse] at h
  have := List.mem_takeWhile_imp h
  simp at this

theorem fs_has_append_self (fs : UploadFs) (p : String) (b : List UInt8) :
    fs_has (fs ++ [(p, b)]) p = true := by
  simp [fs_has]

theorem ext_sanitary_chars {e : String} (h : ext_sanitary e = true) :
    ∀ c ∈ e.data, c = '.' ∨ (c.isAlpha || c.isDigit) = true := by
  unfold ext_sanitary at h
  cases hdata : e.data with
  | nil => rw [hdata] at h; exact absurd h (by simp)
  | cons c rest =>
    rw [hdata] at h
    simp only [Bool.and_eq_true, decide_eq_true_eq] at h
    intro x hx
    rcases List.mem_cons.mp hx with rfl | hx
    · exact Or.inl h.1.1.1
    · exact Or.inr (List.all_eq_true.mp h.2 x hx)

/-- C8 counterexample: re-uploading identical bytes under a different
filename (here `a.md` then `b.markdown`, both accepted as `text/markdown`)
stores a **second** file at a different content-addressed path, because the
extension comes from the uploaded name — so "re-uploading identical bytes
reuses the already stored file" fails as universally stated. -/
theorem claim8_counterexample :
    upload_ok_path (handle_file_upload (fun _ => "aa") "/up" [] (some "a.md")
        [104, 101, 108, 108, 111]) = "/up/aa.md"
    ∧ upload_ok_wrote (handle_file_upload (fun _ => "aa") "/up" [] (some "a.md")
        [104, 101, 108, 108, 111]) = true
    ∧ upload_ok_path (handle_file_upload (fun _ => "aa") "/up"
        (upload_ok_fs (handle_file_upload (fun _ => "aa") "/up" [] (some "a.md")
          [104, 101, 108, 108, 111]))
        (some "b.markdown") [104, 101, 108, 108, 111]) = "/up/aa.markdown"
    ∧ upload_ok_wrote (handle_file_upload (fun _ => "aa") "/up"
        (upload_ok_fs (handle_file_upload (fun _ => "aa") "/up" [] (some "a.md")
          [104, 101, 108, 108, 111]))
        (some "b.markdown") [104, 101, 108, 108, 111]) = true
    ∧ ("/up/aa.markdown" : String) ≠ "/up/aa.md" := by
  refine ⟨by decide, by decide, by decide, by decide, by decide⟩

/-- C8 (amended): for every accepted upload the stored path is exactly
`{uploads_root}/{sha256(bytes)}{extension}` (extension as the code guesses
and sanitizes it), that path resolves directly inside the uploads root, the
recorded original name is stripped of directory components, the stored file
exists afterwards, and re-uploading identical bytes **under the same
filename** reuses the stored file instead of writing a new one. -/
theorem claim8_upload_amended
    (sha_hex : List UInt8 → String) (root : String) (fs : UploadFs)
    (fname : Option String) (bytes : List UInt8) (r : UploadOut)
    (hhex : ∀ c ∈ (sha_hex bytes).data, isHexDigitChar c = true)
    (hne : sha_hex bytes ≠ "")
    (hok : handle_file_upload sha_hex root fs fname bytes = .ok r) :
    r.sha256_hash = sha_hex bytes
    ∧ r.original_name = multipart_filename fname
    ∧ '/' ∉ r.original_name.data
    ∧ r.stored_path = root ++ "/" ++ sha_hex bytes
        ++ (if ext_sanitary (guess_extension r.mime_type r.original_name)
            then guess_extension r.mime_type r.original_name else "")
    ∧ path_within_dir root r.stored_path
    ∧ fs_has r.fs r.stored_path = true
    ∧ handle_file_upload sha_hex root r.fs fname bytes
        = .ok ⟨r.original_name, r.stored_path, r.sha256_hash, r.mime_type,
               r.size_bytes, r.fs, false⟩ := by
  simp only [handle_file_upload] at hok
  split at hok
  · exact Except.noConfusion hok
  · split at hok
    · exact Except.noConfusion hok
    · split at hok
      · exact Except.noConfusion hok
      · rename_i hbytes hmime hsize
        simp only [Except.ok.injEq] at hok
        subst hok
        set name := multipart_filename fname with hname
        set mime := detect_mime_type bytes name with hmime2
        set ext0 := guess_extension mime name with hext0
        set ext := (if ext_sanitary ext0 then ext0 else "") with hext
        set path := root ++ "/" ++ sha_hex bytes ++ ext with hpath
        have hnoslash_ext : ∀ c ∈ ext.data, c ≠ '/' ∧ c ≠ '.' ∨ c = '.' := by
          intro c hc
          rw [hext] at hc
          split at hc
          · rename_i hsan
            rcases ext_sanitary_chars hsan c hc with h | h
            · exact Or.inr h
            · refine Or.inl ⟨?_, ?_⟩ <;> rintro rfl <;> revert h <;> decide
          · simp at hc
        have hsha_head : ∃ c0 t, (sha_hex bytes).data = c0 :: t ∧ isHexDigitChar c0 = true := by
          cases hdata : (sha_hex bytes).data with
          | nil => exact absurd (string_eq_of_data hdata) hne
          | cons c0 t => exact ⟨c0, t, rfl, hhex c0 (hdata ▸ List.mem_cons_self ..)⟩
        have hwithin : path_within_dir root path := by
          refine ⟨sha_hex bytes ++ ext, ?_, ?_, ?_, ?_, ?_⟩
          · rw [hpath]
            refine string_eq_of_data ?_
            simp [String.data_append]
          · intro h
            apply hne
            apply string_eq_of_data
            have := congrArg String.data h
            simp only [String.data_append] at this
            rcases List.append_eq_nil.mp (by simpa using this) with ⟨h1, _⟩
            simpa using h1
          · obtain ⟨c0, t, hd, hhx⟩ := hsha_head
            intro h
            have hdd := congrArg String.data h
            rw [String.data_append, hd, List.cons_append,
              show (".".data) = ['.'] from rfl] at hdd
            have hc0 : c0 = '.' := (List.cons_eq_cons.mp hdd).1
            rw [hc0] at hhx
            exact absurd hhx (by decide)
          · obtain ⟨c0, t, hd, hhx⟩ := hsha_head
            intro h
            have hdd := congrArg String.data h
            rw [String.data_append, hd, List.cons_append,
              show ("..".data) = ['.', '.'] from rfl] at hdd
            have hc0 : c0 = '.' := (List.cons_eq_cons.mp hdd).1
            rw [hc0] at hhx
            exact absurd hhx (by decide)
          · intro h
            rw [String.data_append] at h
            rcases List.mem_append.mp h with h | h
            · have := hhex _ h
              exact absurd this (by decide)
            · rcases hnoslash_ext _ h with ⟨h1, _⟩ | h1
              · exact h1 rfl
              · exact absurd h1 (by decide)
        have hfs2 : fs_has (if fs_has fs path = true then fs
            else fs ++ [(path, bytes)]) path = true := by
          split
          · assumption
          · exact fs_has_append_self fs path bytes
        refine ⟨rfl, rfl, by simpa using basename_no_slash _, rfl, hwithin, ?_, ?_⟩
        · simpa using hfs2
        · simp only [handle_file_upload]
          rw [if_neg hbytes, if_neg hmime, if_neg hsize]
          have : fs_has (if fs_has fs path then fs else fs ++ [(path, bytes)]) path
              = true := by simpa using hfs2
          simp only [← hname, ← hmime2, ← hext0, ← hext, ← hpath, this]
          simp

/-- C8 witness: a 1-byte text upload under `n.txt` is stored at
`/up/ab.txt`, and re-uploading the same bytes under the same name reuses it. -/
theorem claim8_witness :
    path_within_dir "/up"
      (UploadOut.stored_path ⟨"n.txt", "/up/ab.txt", "ab", "text/plain", 1,
        [("/up/ab.txt", [104])], true⟩)
    ∧ handle_file_upload (fun _ => "ab") "/up" [("/up/ab.txt", [104])] (some "n.txt")
        [104]
      = .ok ⟨"n.txt", "/up/ab.txt", "ab", "text/plain", 1,
             [("/up/ab.txt", [104])], false⟩ := by
  have h := claim8_upload_amended (fun _ => "ab") "/up" [] (some "n.txt") [104]
    ⟨"n.txt", "/up/ab.txt", "ab", "text/plain", 1, [("/up/ab.txt", [104])], true⟩
    (by decide) (by decide) (by decide)
  exact ⟨h.2.2.2.2.1, h.2.2.2.2.2.2⟩

/-! Helper lemmas for the multimodal composition. -/

theorem str_append_assoc (a b c : String) : a ++ b ++ c = a ++ (b ++ c) :=
  string_eq_of_data (by simp [String.data_append])

theorem filterMap_as_filter_map {α β : Type} (g : α → Option β) (p : α → Bool)
    (f : α → β) (hg : ∀ a, g a = if p a then some (f a) else none) (l : List α) :
    l.filterMap g = (l.filter p).map f := by
  induction l with
  | nil => rfl
  | cons a l ih =>
    by_cases hp : p a
    · simp [List.filterMap_cons, List.filter_cons, hg a, hp, ih]
    · simp [List.filterMap_cons, List.filter_cons, hg a, hp, ih]

theorem pyJoin_append_last (sep u : String) :
    ∀ bs : List String, bs ≠ [] →
      pyJoin sep (bs ++ [u]) = pyJoin sep bs ++ sep ++ u
  | [], h => absurd rfl h
  | [x], _ => rfl
  | x :: y :: ys, _ => by
    have ih := pyJoin_append_last sep u (y :: ys) (by simp)
    show x ++ sep ++ pyJoin sep ((y :: ys) ++ [u])
      = x ++ sep ++ pyJoin sep (y :: ys) ++ sep ++ u
    rw [ih]
    apply string_eq_of_data
    simp [String.data_append, List.append_assoc]

/-- The per-file context-block function of
`_compose_user_text_with_file_context`, in filter/map form. -/
theorem context_blocks_as_filter (files : List FileRec) :
    files.filterMap (fun f =>
      match f.extracted_text with
      | none => none
      | some e0 =>
        let e := pyStrip e0
        if e = "" then none
        else some ("[File: " ++ file_display_name f ++ "]\n" ++ e))
      = (files.filter has_context_block).map context_block_of := by
  apply filterMap_as_filter_map
  intro f
  cases he : f.extracted_text with
  | none => simp [has_context_block, he]
  | some e0 =>
    by_cases hs : pyStrip e0 = ""
    · simp [has_context_block, he, hs]
    · simp [has_context_block, he, hs, context_block_of]

/-- The image-part loop of `_build_user_content_for_model`, in filter/map
form. -/
theorem image_parts_as_filter (read_file : String → Option (List UInt8))
    (files : List FileRec) :
    image_parts_of read_file files = spec_image_parts read_file files := by
  apply filterMap_as_filter_map
  intro f
  by_cases hm : (f.mime_type.getD "") ∈ ALLOWED_IMAGE_TYPES
  · by_cases hp : (f.stored_path.getD "") = ""
    · simp [is_attached_image, hm, hp]
    · cases hr : read_file (f.stored_path.getD "") with
      | none => simp [is_attached_image, hm, hp, hr]
      | some raw =>
        by_cases hraw : raw = []
        · simp [is_attached_image, hm, hp, hr, hraw]
        · simp [is_attached_image, hm, hp, hr, hraw]
  · simp [is_attached_image, hm]

/-- C9 counterexample: with one attached image and empty user text the text
part of the outbound content is the fixed placeholder, **not** the composed
text (which is empty) — so "the text part equals the composed text" fails. -/
theorem claim9_counterexample :
    build_user_content_for_model (fun _ => some [1]) ""
        [⟨some "f", some "img.png", some "/up/p.png", some "image/png", some 1, none⟩]
      = .parts [ContentPart.text "Please analyze the attached image(s).",
                ContentPart.image_url "data:image/png;base64,AQ=="]
    ∧ compose_user_text_with_file_context ""
        [⟨some "f", some "img.png", some "/up/p.png", some "image/png", some 1, none⟩]
      = ""
    ∧ ("Please analyze the attached image(s)." : String) ≠ "" := by
  refine ⟨by decide, by decide, by decide⟩

/-- C9 (amended): `compose` prepends one `[File: name]\n{stripped extracted}`
block per file with non-empty stripped extracted text, blank-line separated,
then the user's text (`compose(user_text, []) = user_text`); the outbound
content is the composed string when no attached image is readable, and
otherwise a list of one text part — the **stripped** composed text, or a
fixed placeholder when that is empty — followed by one `image_url` part per
readable, non-empty attached image. -/
theorem claim9_compose_amended
    (read_file : String → Option (List UInt8)) (user_text : String)
    (files : List FileRec) :
    compose_user_text_with_file_context user_text [] = user_text
    ∧ compose_user_text_with_file_context user_text files = spec_compose user_text files
    ∧ image_parts_of read_file files = spec_image_parts read_file files
    ∧ (spec_image_parts read_file files = [] →
        build_user_content_for_model read_file user_text files
          = .str (compose_user_text_with_file_context user_text files))
    ∧ (spec_image_parts read_file files ≠ [] →
        build_user_content_for_model read_file user_text files
          = .parts (ContentPart.text
              (if pyStrip (compose_user_text_with_file_context user_text files) = ""
               then "Please analyze the attached image(s)."
               else pyStrip (compose_user_text_with_file_context user_text files))
            :: spec_image_parts read_file files)) := by
  have hcompose : compose_user_text_with_file_context user_text files
      = spec_compose user_text files := by
    simp only [compose_user_text_with_file_context, spec_compose,
      context_blocks_as_filter]
    cases hbs : (files.filter has_context_block).map context_block_of with
    | nil => simp
    | cons b bs =>
      rw [if_neg (show ¬(b :: bs = []) by simp),
        if_neg (show ¬((b :: bs).isEmpty = true) by simp)]
      by_cases hu : user_text = ""
      · simp [hu]
      · rw [if_neg hu, if_neg hu,
          pyJoin_append_last "\n\n" user_text (b :: bs) (by simp)]
  refine ⟨rfl, hcompose, image_parts_as_filter read_file files, ?_, ?_⟩
  · intro hempty
    simp only [build_user_content_for_model, image_parts_as_filter, hempty]
    simp
  · intro hne
    simp only [build_user_content_for_model, image_parts_as_filter]
    rw [if_neg hne]

/-- C9 witness: leading whitespace in the user text is stripped in the text
part of a multimodal message. -/
theorem claim9_witness :
    build_user_content_for_model (fun _ => some [1]) " hi"
        [⟨some "f", some "img.png", some "/up/p.png", some "image/png", some 1, none⟩]
      = .parts (ContentPart.text
          (if pyStrip (compose_user_text_with_file_context " hi"
                [⟨some "f", some "img.png", some "/up/p.png", some "image/png",
                  some 1, none⟩]) = ""
           then "Please analyze the attached image(s)."
           else pyStrip (compose_user_text_with_file_context " hi"
                [⟨some "f", some "img.png", some "/up/p.png", some "image/png",
                  some 1, none⟩]))
          :: spec_image_parts (fun _ => some [1])
              [⟨some "f", some "img.png", some "/up/p.png", some "image/png",
                some 1, none⟩]) :=
  (claim9_compose_amended (fun _ => some [1]) " hi"
    [⟨some "f", some "img.png", some "/up/p.png", some "image/png", some 1, none⟩]).2.2.2.2
    (by decide)

/-- C6 counterexample: with no attachments the encoder returns the text
unchanged, but if that text itself begins with the message-meta sentinel the
parser strips it, so `parse(encode(text, [])).body ≠ text`. -/
theorem claim6_counterexample :
    encode_message_content_with_meta "[[MESSAGE_META]]{}[[/MESSAGE_META]]hi" [] []
      = .ok "[[MESSAGE_META]]{}[[/MESSAGE_META]]hi"
    ∧ (parse_message_content_with_meta "[[MESSAGE_META]]{}[[/MESSAGE_META]]hi").1
      = "hi"
    ∧ ("hi" : String) ≠ "[[MESSAGE_META]]{}[[/MESSAGE_META]]hi" := by
  refine ⟨by decide, by decide, by decide⟩

/-! Helper lemmas for the message-meta round trip: plain strings render
verbatim and parse back. -/

theorem string_mk_data (s : String) : (⟨s.data⟩ : String) = s := by
  cases s; rfl

/-- The per-character facts packed in `plain_json_str`. -/
theorem plain_json_str_spec {s : String} (h : plain_json_str s = true) :
    ∀ c ∈ s.data, ¬c = '"' ∧ ¬c = '\\' ∧ 32 ≤ c.toNat ∧ ¬c = '[' := by
  intro c hc
  have := List.all_eq_true.mp h c hc
  simp only [Bool.and_eq_true, Bool.not_eq_true', decide_eq_true_eq,
    decide_eq_false_iff_not] at this
  exact ⟨this.1.1.1, this.1.1.2, this.1.2, this.2⟩

theorem jsonEscape_plain {c : Char} (h1 : ¬c = '"') (h2 : ¬c = '\\')
    (h3 : 32 ≤ c.toNat) : jsonEscape c = [c] := by
  have hn : ¬c = '\n' := fun hh => by subst hh; exact absurd h3 (by decide)
  have hr : ¬c = '\r' := fun hh => by subst hh; exact absurd h3 (by decide)
  have ht : ¬c = '\t' := fun hh => by subst hh; exact absurd h3 (by decide)
  simp only [jsonEscape, if_neg h1, if_neg h2, if_neg hn, if_neg hr, if_neg ht,
    if_neg (by omega : ¬c.toNat = 8), if_neg (by omega : ¬c.toNat = 12),
    if_neg (by omega : ¬c.toNat < 32)]

theorem flatMap_jsonEscape_plain {s : List Char}
    (hs : ∀ c ∈ s, ¬c = '"' ∧ ¬c = '\\' ∧ 32 ≤ c.toNat) :
    s.flatMap jsonEscape = s := by
  induction s with
  | nil => rfl
  | cons c t ih =>
    obtain ⟨h1, h2, h3⟩ := hs c (List.mem_cons_self ..)
    rw [List.flatMap_cons, jsonEscape_plain h1 h2 h3,
      ih (fun x hx => hs x (List.mem_cons_of_mem _ hx))]
    rfl

theorem parseJStrBody_plain (s : List Char)
    (hs : ∀ c ∈ s, ¬c = '"' ∧ ¬c = '\\' ∧ 32 ≤ c.toNat) :
    ∀ rest : List Char, parseJStrBody (s ++ '"' :: rest) = some (s, rest) := by
  induction s with
  | nil =>
    intro rest
    rfl
  | cons c t ih =>
    intro rest
    obtain ⟨h1, h2, h3⟩ := hs c (List.mem_cons_self ..)
    show parseJStrBody (c :: (t ++ '"' :: rest)) = _
    rw [parseJStrBody, if_neg h1, if_neg h2, if_neg (show ¬c.toNat < 32 by omega),
      ih (fun x hx => hs x (List.mem_cons_of_mem _ hx)) rest]
    rfl

theorem parseJStr_plain (s : String) (hs : plain_json_str s = true)
    (rest : List Char) : parseJStr (s.data ++ '"' :: rest) = some (s, rest) := by
  rw [parseJStr, parseJStrBody_plain s.data
    (fun c hc => (plain_json_str_spec hs c hc).imp id (fun h => ⟨h.1, h.2.1⟩)) rest]
  simp [string_mk_data]

theorem dropJsonWs_cons {c : Char} {l : List Char} (h : jsonWsChar c = false) :
    dropJsonWs (c :: l) = c :: l := by
  simp [dropJsonWs, List.dropWhile_cons, h]

/-- Decimal digit characters: value and class, case by case. -/
theorem decDigitChar_spec : ∀ d, d < 10 →
    (decDigitChar d).toNat = 48 + d ∧ (decDigitChar d).isDigit = true := by
  intro d hd
  interval_cases d <;> exact ⟨by decide, by decide⟩

/-- Facts one digit head settles about the parser's branching. -/
theorem digit_head_facts {c : Char} (h : c.isDigit = true) :
    jsonWsChar c = false ∧ ¬c = 'n' ∧ ¬c = 't' ∧ ¬c = 'f' ∧ ¬c = '"'
    ∧ ¬c = '[' ∧ ¬c = lbraceChar ∧ ¬c = ',' ∧ ¬c = ']' ∧ ¬c = rbraceChar
    ∧ ¬c = ':' ∧ ¬c = '-' := by
  refine ⟨?_, ?_, ?_, ?_, ?_, ?_, ?_, ?_, ?_, ?_, ?_, ?_⟩
  · by_contra hw
    have hw' : jsonWsChar c = true := by
      cases hj : jsonWsChar c
      · exact absurd hj hw
      · rfl
    simp only [jsonWsChar, Bool.or_eq_true, beq_iff_eq] at hw'
    rcases hw' with ((rfl | rfl) | rfl) | rfl <;> exact absurd h (by decide)
  all_goals (rintro rfl; exact absurd h (by decide))

theorem natCharsAux_spec :
    ∀ (fuel n : Nat), n < fuel →
      natCharsAux fuel n ≠ []
      ∧ (∀ c ∈ natCharsAux fuel n, c.isDigit = true)
      ∧ digitsVal (natCharsAux fuel n) = n := by
  intro fuel
  induction fuel with
  | zero => intro n h; omega
  | succ f ih =>
    intro n h
    by_cases h10 : n < 10
    · simp only [natCharsAux, if_pos h10]
      obtain ⟨hv, hd⟩ := decDigitChar_spec n h10
      refine ⟨by simp, ?_, ?_⟩
      · intro c hc
        rw [List.mem_singleton] at hc
        subst hc
        exact hd
      · simp [digitsVal, hv]
    · simp only [natCharsAux, if_neg h10]
      have hdiv : n / 10 < f := by omega
      obtain ⟨hne, hall, hval⟩ := ih (n / 10) hdiv
      obtain ⟨hv, hd⟩ := decDigitChar_spec (n % 10) (by omega)
      refine ⟨by simp, ?_, ?_⟩
      · intro c hc
        rcases List.mem_append.mp hc with hc | hc
        · exact hall c hc
        · rw [List.mem_singleton] at hc; subst hc; exact hd
      · simp only [digitsVal, List.foldl_append, List.foldl_cons, List.foldl_nil]
        have : digitsVal (natCharsAux f (n / 10)) = n / 10 := hval
        simp only [digitsVal] at this
        rw [this, hv]
        omega

theorem natChars_spec (n : Nat) :
    natChars n ≠ [] ∧ (∀ c ∈ natChars n, c.isDigit = true)
    ∧ digitsVal (natChars n) = n :=
  natCharsAux_spec (n + 1) n (by omega)

theorem takeWhile_all_append {p : Char → Bool} {ds rest : List Char}
    (h : ∀ c ∈ ds, p c = true)
    (hr : match rest with | [] => True | r :: _ => p r = false) :
    (ds ++ rest).takeWhile p = ds ∧ (ds ++ rest).dropWhile p = rest := by
  induction ds with
  | nil =>
    cases rest with
    | nil => exact ⟨rfl, rfl⟩
    | cons r t =>
      simp only at hr
      simp [List.takeWhile_cons, List.dropWhile_cons, hr]
  | cons d ds ih =>
    have hd := h d (List.mem_cons_self ..)
    obtain ⟨h1, h2⟩ := ih (fun c hc => h c (List.mem_cons_of_mem _ hc))
    simp [List.takeWhile_cons, List.dropWhile_cons, hd, h1, h2]

theorem parseJNat_natChars (n : Nat) (rest : List Char)
    (hrest : match rest with | [] => True | r :: _ => r.isDigit = false) :
    parseJNat (natChars n ++ rest) = some (n, rest) := by
  obtain ⟨hne, hall, hval⟩ := natChars_spec n
  obtain ⟨ht, hd⟩ := takeWhile_all_append hall hrest
  simp only [parseJNat, ht, hd, if_neg hne, hval]

theorem parseJInt_intChars (n : Int) (rest : List Char)
    (hrest : match rest with | [] => True | r :: _ => r.isDigit = false) :
    parseJInt (intChars n ++ rest) = some (n, rest) := by
  by_cases hneg : n < 0
  · rw [show intChars n = '-' :: natChars n.natAbs from by
        unfold intChars; rw [if_pos hneg]]
    rw [List.cons_append, parseJInt, if_pos rfl,
      parseJNat_natChars n.natAbs rest hrest]
    have hn : (-(n.natAbs : Int)) = n := by omega
    show some (-(n.natAbs : Int), rest) = some (n, rest)
    rw [hn]
  · rw [show intChars n = natChars n.natAbs from by
        unfold intChars; rw [if_neg hneg]]
    obtain ⟨hne, hall, _⟩ := natChars_spec n.natAbs
    cases hnc : natChars n.natAbs with
    | nil => exact absurd hnc hne
    | cons c0 t =>
      have hc0 : c0.isDigit = true := hall c0 (hnc ▸ List.mem_cons_self ..)
      have hfacts := digit_head_facts hc0
      rw [List.cons_append, parseJInt, if_neg hfacts.2.2.2.2.2.2.2.2.2.2.2]
      rw [← List.cons_append, ← hnc, parseJNat_natChars n.natAbs rest hrest]
      have hn : ((n.natAbs : Int)) = n := by omega
      show some ((n.natAbs : Int), rest) = some (n, rest)
      rw [hn]

/-! Parser lemmas for whole JSON values, as the meta object's renderer emits
them. -/

theorem dropJsonWs_ws {c : Char} {l : List Char} (h : jsonWsChar c = true) :
    dropJsonWs (c :: l) = dropJsonWs l := by
  simp [dropJsonWs, List.dropWhile_cons, h]

theorem parseJVal_ws (fuel : Nat) (c : Char) (l : List Char)
    (h : jsonWsChar c = true) :
    parseJVal fuel (c :: l) = parseJVal fuel l := by
  cases fuel with
  | zero => rfl
  | succ f =>
    rw [parseJVal, parseJVal, dropJsonWs_ws h]

theorem parseJItems_ws (fuel : Nat) (c : Char) (l : List Char)
    (h : jsonWsChar c = true) :
    parseJItems fuel (c :: l) = parseJItems fuel l := by
  cases fuel with
  | zero => rfl
  | succ f =>
    rw [parseJItems, parseJItems, parseJVal_ws f c l h]

theorem parseJMembers_ws (fuel : Nat) (c : Char) (l : List Char)
    (h : jsonWsChar c = true) :
    parseJMembers fuel (c :: l) = parseJMembers fuel l := by
  cases fuel with
  | zero => rfl
  | succ f =>
    rw [parseJMembers, parseJMembers, dropJsonWs_ws h]

theorem parseJVal_str (fuel : Nat) (s : String) (hs : plain_json_str s = true)
    (rest : List Char) :
    parseJVal (fuel + 1) (dumpsStr s ++ rest) = some (.str s, rest) := by
  have hesc : s.data.flatMap jsonEscape = s.data :=
    flatMap_jsonEscape_plain
      (fun c hc => by
        obtain ⟨h1, h2, h3, _⟩ := plain_json_str_spec hs c hc
        exact ⟨h1, h2, h3⟩)
  rw [show dumpsStr s ++ rest = '"' :: (s.data ++ '"' :: rest) from by
    simp [dumpsStr, hesc, List.append_assoc]]
  rw [parseJVal, dropJsonWs_cons (by decide)]
  simp only [if_neg (show ¬('"' : Char) = 'n' by decide),
    if_neg (show ¬('"' : Char) = 't' by decide),
    if_neg (show ¬('"' : Char) = 'f' by decide), if_pos rfl]
  rw [parseJStr_plain s hs rest]
  rfl

theorem parseJVal_int (fuel : Nat) (n : Int) (rest : List Char)
    (hrest : match rest with | [] => True | r :: _ => r.isDigit = false) :
    parseJVal (fuel + 1) (intChars n ++ rest) = some (.int n, rest) := by
  by_cases hneg : n < 0
  · have hm : intChars n = '-' :: natChars n.natAbs := by
      unfold intChars; rw [if_pos hneg]
    rw [hm, List.cons_append, parseJVal, dropJsonWs_cons (by decide)]
    simp only [if_neg (show ¬('-' : Char) = 'n' by decide),
      if_neg (show ¬('-' : Char) = 't' by decide),
      if_neg (show ¬('-' : Char) = 'f' by decide),
      if_neg (show ¬('-' : Char) = '"' by decide),
      if_neg (show ¬('-' : Char) = '[' by decide),
      if_neg (show ¬('-' : Char) = lbraceChar by decide),
      if_pos (show ('-' : Char).isDigit = true ∨ ('-' : Char) = '-' from Or.inr rfl)]
    rw [← List.cons_append, ← hm, parseJInt_intChars n rest hrest]
    rfl
  · have hm : intChars n = natChars n.natAbs := by
      unfold intChars; rw [if_neg hneg]
    obtain ⟨hne, hall, _⟩ := natChars_spec n.natAbs
    cases hnc : natChars n.natAbs with
    | nil => exact absurd hnc hne
    | cons c0 t =>
      have hc0 : c0.isDigit = true := hall c0 (hnc ▸ List.mem_cons_self ..)
      obtain ⟨hws, hn, ht, hf, hq, hlb, hob, hcm, hrb, hcb, hcl, hmn⟩ :=
        digit_head_facts hc0
      rw [hm, hnc, List.cons_append, parseJVal, dropJsonWs_cons hws]
      simp only [if_neg hn, if_neg ht, if_neg hf, if_neg hq, if_neg hlb,
        if_neg hob, if_pos (Or.inl hc0)]
      rw [← List.cons_append, ← hnc, ← hm, parseJInt_intChars n rest hrest]
      rfl

/-- A "simple" JSON value: a plain string or an integer — the only shapes the
file cards contain. -/
theorem parseJVal_simple (fuel : Nat) (v : PyJson) (rest : List Char)
    (hv : (∃ s, v = PyJson.str s ∧ plain_json_str s = true) ∨ (∃ i, v = PyJson.int i))
    (hrest : match rest with | [] => True | r :: _ => r.isDigit = false) :
    parseJVal (fuel + 1) (dumpsJ v ++ rest) = some (v, rest) := by
  rcases hv with ⟨s, rfl, hpl⟩ | ⟨i, rfl⟩
  · exact parseJVal_str fuel s hpl rest
  · exact parseJVal_int fuel i rest hrest

/-- Stepping over one `"key": ` prefix of a member list. -/
theorem parseJMembers_key_step (fuel : Nat) (k : String)
    (hk : plain_json_str k = true) (tail : List Char) :
    parseJMembers (fuel + 1) ('"' :: (k.data ++ '"' :: ':' :: tail))
      = (match parseJVal fuel tail with
        | none => none
        | some (v2, r3) =>
          match dropJsonWs r3 with
          | [] => none
          | c3 :: r4 =>
            if c3 = ',' then
              (parseJMembers fuel r4).map (fun p => ((k, v2) :: p.1, p.2))
            else if c3 = rbraceChar then some ([(k, v2)], r4)
            else none) := by
  rw [parseJMembers, dropJsonWs_cons (by decide)]
  simp only [if_pos rfl]
  rw [parseJStr_plain k hk _]
  simp only [dropJsonWs_cons (show jsonWsChar ':' = false from by decide),
    if_pos rfl, if_true]

/-- Parsing one-or-more members whose values are simple, up to the closing
brace. -/
theorem parseJMembers_simple :
    ∀ (ms : List (String × PyJson)) (fuel : Nat) (rest : List Char),
    ms ≠ [] →
    (∀ kv ∈ ms, plain_json_str kv.1 = true ∧
      ((∃ s, kv.2 = PyJson.str s ∧ plain_json_str s = true)
        ∨ (∃ i, kv.2 = PyJson.int i))) →
    ms.length + 1 ≤ fuel →
    parseJMembers fuel (dumpsMembers ms ++ rbraceChar :: rest) = some (ms, rest)
  | [], _, _, h, _, _ => absurd rfl h
  | [(k, v)], fuel, rest, _, hsimple, hfuel => by
    obtain ⟨hk, hv⟩ := hsimple (k, v) (by simp)
    obtain ⟨f, rfl⟩ : ∃ f, fuel = f + 2 := ⟨fuel - 2, by simp at hfuel; omega⟩
    have hesc : k.data.flatMap jsonEscape = k.data :=
      flatMap_jsonEscape_plain
        (fun c hc => by
          obtain ⟨h1, h2, h3, _⟩ := plain_json_str_spec hk c hc
          exact ⟨h1, h2, h3⟩)
    have harg : dumpsMembers [(k, v)] ++ rbraceChar :: rest
        = '"' :: (k.data ++ '"' :: ':'
            :: (' ' :: (dumpsJ v ++ rbraceChar :: rest))) := by
      simp [dumpsMembers, dumpsStr, hesc, List.append_assoc]
    rw [harg, parseJMembers_key_step (f + 1) k hk _,
      parseJVal_ws (f + 1) ' ' _ (by decide),
      parseJVal_simple f v (rbraceChar :: rest) hv
        (by show rbraceChar.isDigit = false; decide)]
    simp only [dropJsonWs_cons (show jsonWsChar rbraceChar = false from by decide),
      if_neg (show ¬rbraceChar = ',' from by decide), if_pos rfl, if_true]
  | (k, v) :: m :: ms, fuel, rest, _, hsimple, hfuel => by
    obtain ⟨hk, hv⟩ := hsimple (k, v) (by simp)
    obtain ⟨f, rfl⟩ : ∃ f, fuel = f + 2 := ⟨fuel - 2, by simp at hfuel; omega⟩
    have hesc : k.data.flatMap jsonEscape = k.data :=
      flatMap_jsonEscape_plain
        (fun c hc => by
          obtain ⟨h1, h2, h3, _⟩ := plain_json_str_spec hk c hc
          exact ⟨h1, h2, h3⟩)
    have harg : dumpsMembers ((k, v) :: m :: ms) ++ rbraceChar :: rest
        = '"' :: (k.data ++ '"' :: ':'
            :: (' ' :: (dumpsJ v ++ ',' :: ' '
              :: (dumpsMembers (m :: ms) ++ rbraceChar :: rest)))) := by
      simp [dumpsMembers, dumpsStr, hesc, List.append_assoc]
    rw [harg, parseJMembers_key_step (f + 1) k hk _,
      parseJVal_ws (f + 1) ' ' _ (by decide),
      parseJVal_simple f v _ hv (by show (',' : Char).isDigit = false; decide)]
    simp only [dropJsonWs_cons (show jsonWsChar ',' = false from by decide),
      if_pos rfl, if_true]
    rw [parseJMembers_ws (f + 1) ' ' _ (by decide),
      parseJMembers_simple (m :: ms) (f + 1) rest (by simp)
        (fun kv hkv => hsimple kv (List.mem_cons_of_mem _ hkv))
        (by simp at hfuel ⊢; omega)]
    rfl

/-- Parsing the items of a non-empty array of plain strings. -/
theorem parseJItems_strs :
    ∀ (ids : List String) (fuel : Nat) (rest : List Char),
    ids ≠ [] → (∀ x ∈ ids, plain_json_str x = true) → ids.length + 1 ≤ fuel →
    parseJItems fuel (dumpsItems (ids.map PyJson.str) ++ ']' :: rest)
      = some (ids.map PyJson.str, rest)
  | [], _, _, h, _, _ => absurd rfl h
  | [x], fuel, rest, _, hplain, hfuel => by
    obtain ⟨f, rfl⟩ : ∃ f, fuel = f + 2 := ⟨fuel - 2, by simp at hfuel; omega⟩
    show parseJItems (f + 2) (dumpsStr x ++ ']' :: rest)
      = some ([PyJson.str x], rest)
    rw [parseJItems, parseJVal_str f x (hplain x (by simp)) (']' :: rest)]
    simp only [dropJsonWs_cons (show jsonWsChar ']' = false from by decide),
      if_neg (show ¬(']' : Char) = ',' from by decide), if_pos rfl, if_true]
  | x :: y :: ys, fuel, rest, _, hplain, hfuel => by
    obtain ⟨f, rfl⟩ : ∃ f, fuel = f + 2 := ⟨fuel - 2, by simp at hfuel; omega⟩
    have harg : dumpsItems ((x :: y :: ys).map PyJson.str) ++ ']' :: rest
        = dumpsStr x ++ ',' :: ' '
            :: (dumpsItems ((y :: ys).map PyJson.str) ++ ']' :: rest) := by
      simp [dumpsItems, dumpsJ, List.append_assoc]
    rw [harg, parseJItems, parseJVal_str f x (hplain x (by simp)) _]
    simp only [dropJsonWs_cons (show jsonWsChar ',' = false from by decide),
      if_pos rfl, if_true]
    rw [parseJItems_ws (f + 1) ' ' _ (by decide),
      parseJItems_strs (y :: ys) (f + 1) rest (by simp)
        (fun z hz => hplain z (List.mem_cons_of_mem _ hz))
        (by simp at hfuel ⊢; omega)]
    rfl

/-- Parsing one object with simple members, as a value. -/
theorem parseJVal_obj_simple (fuel : Nat) (ms : List (String × PyJson))
    (rest : List Char) (hne : ms ≠ [])
    (hsimple : ∀ kv ∈ ms, plain_json_str kv.1 = true ∧
      ((∃ s, kv.2 = PyJson.str s ∧ plain_json_str s = true)
        ∨ (∃ i, kv.2 = PyJson.int i)))
    (hfuel : ms.length + 1 ≤ fuel) :
    parseJVal (fuel + 1) (dumpsJ (PyJson.obj ms) ++ rest)
      = some (PyJson.obj ms, rest) := by
  obtain ⟨⟨k, v⟩, tl, rfl⟩ : ∃ m tl, ms = m :: tl := by
    cases ms with
    | nil => exact absurd rfl hne
    | cons m tl => exact ⟨m, tl, rfl⟩
  have hms : ∃ R, dumpsMembers ((k, v) :: tl) = '"' :: R := by
    cases tl with
    | nil => exact ⟨_, rfl⟩
    | cons m tl2 => exact ⟨_, rfl⟩
  obtain ⟨R, hR⟩ := hms
  have harg : dumpsJ (PyJson.obj ((k, v) :: tl)) ++ rest
      = lbraceChar :: (dumpsMembers ((k, v) :: tl) ++ rbraceChar :: rest) := by
    simp [dumpsJ, List.append_assoc]
  rw [harg, parseJVal,
    dropJsonWs_cons (show jsonWsChar lbraceChar = false from by decide)]
  simp only [if_neg (show ¬lbraceChar = 'n' from by decide),
    if_neg (show ¬lbraceChar = 't' from by decide),
    if_neg (show ¬lbraceChar = 'f' from by decide),
    if_neg (show ¬lbraceChar = '"' from by decide),
    if_neg (show ¬lbraceChar = '[' from by decide), if_pos rfl, if_true]
  rw [hR, List.cons_append,
    dropJsonWs_cons (show jsonWsChar '"' = false from by decide)]
  simp only [if_neg (show ¬('"' : Char) = rbraceChar from by decide)]
  rw [← List.cons_append, ← hR,
    parseJMembers_simple ((k, v) :: tl) fuel rest hne hsimple hfuel]
  rfl

/-- Parsing a non-empty array of plain strings, as a value. -/
theorem parseJVal_arr_strs (fuel : Nat) (ids : List String) (rest : List Char)
    (hne : ids ≠ []) (hplain : ∀ x ∈ ids, plain_json_str x = true)
    (hfuel : ids.length + 1 ≤ fuel) :
    parseJVal (fuel + 1) (dumpsJ (PyJson.arr (ids.map PyJson.str)) ++ rest)
      = some (PyJson.arr (ids.map PyJson.str), rest) := by
  obtain ⟨x, tl, rfl⟩ : ∃ x tl, ids = x :: tl := by
    cases ids with
    | nil => exact absurd rfl hne
    | cons x tl => exact ⟨x, tl, rfl⟩
  have hhead : ∃ R, dumpsItems ((x :: tl).map PyJson.str) = '"' :: R := by
    cases tl with
    | nil => exact ⟨_, rfl⟩
    | cons y tl2 => exact ⟨_, rfl⟩
  obtain ⟨R, hR⟩ := hhead
  have harg : dumpsJ (PyJson.arr ((x :: tl).map PyJson.str)) ++ rest
      = '[' :: (dumpsItems ((x :: tl).map PyJson.str) ++ ']' :: rest) := by
    simp [dumpsJ, List.append_assoc]
  rw [harg, parseJVal,
    dropJsonWs_cons (show jsonWsChar '[' = false from by decide)]
  simp only [if_neg (show ¬('[' : Char) = 'n' from by decide),
    if_neg (show ¬('[' : Char) = 't' from by decide),
    if_neg (show ¬('[' : Char) = 'f' from by decide),
    if_neg (show ¬('[' : Char) = '"' from by decide), if_pos rfl, if_true]
  rw [hR, List.cons_append,
    dropJsonWs_cons (show jsonWsChar '"' = false from by decide)]
  simp only [if_neg (show ¬('"' : Char) = ']' from by decide)]
  rw [← List.cons_append, ← hR,
    parseJItems_strs (x :: tl) fuel rest hne hplain hfuel]
  rfl

theorem file_card_json_eq (f : FileRec) :
    file_card_json f = PyJson.obj (file_card_members f) := rfl

theorem plain_json_str_append (a b : String) (ha : plain_json_str a = true)
    (hb : plain_json_str b = true) : plain_json_str (a ++ b) = true := by
  have hd : (a ++ b).data = a.data ++ b.data := rfl
  simp only [plain_json_str, hd, List.all_append, Bool.and_eq_true]
  exact And.intro ha hb

/-- The members of a file card built from plain fields are simple. -/
theorem card_members_simple (f : FileRec) (h : plain_file_rec f = true) :
    ∀ kv ∈ file_card_members f, plain_json_str kv.1 = true ∧
      ((∃ s, kv.2 = PyJson.str s ∧ plain_json_str s = true)
        ∨ (∃ i, kv.2 = PyJson.int i)) := by
  obtain ⟨⟨⟨h1, h2⟩, h3⟩, h4⟩ : ((plain_json_str (f.id.getD "")
      ∧ plain_json_str (f.original_name.getD ""))
      ∧ plain_json_str (f.mime_type.getD ""))
      ∧ plain_json_str (pyStrOfOptStr f.id) := by
    simpa [plain_file_rec, Bool.and_eq_true, and_assoc] using h
  intro kv hkv
  simp only [file_card_members, List.mem_cons, List.mem_singleton,
    List.not_mem_nil, or_false] at hkv
  rcases hkv with rfl | rfl | rfl | rfl | rfl
  · exact ⟨by show plain_json_str "id" = true; decide, Or.inl ⟨_, rfl, h1⟩⟩
  · exact ⟨by show plain_json_str "name" = true; decide, Or.inl ⟨_, rfl, h2⟩⟩
  · exact ⟨by show plain_json_str "size" = true; decide, Or.inr ⟨_, rfl⟩⟩
  · exact ⟨by show plain_json_str "type" = true; decide, Or.inl ⟨_, rfl, h3⟩⟩
  · exact ⟨by show plain_json_str "url" = true; decide, Or.inl ⟨_, rfl,
      plain_json_str_append "/v1/files/" (pyStrOfOptStr f.id) (by decide) h4⟩⟩

/-- Parsing the items of a non-empty array of file cards. -/
theorem parseJItems_cards :
    ∀ (files : List FileRec) (fuel : Nat) (rest : List Char),
    files ≠ [] → (∀ f ∈ files, plain_file_rec f = true) →
    files.length * 7 + 1 ≤ fuel →
    parseJItems fuel (dumpsItems (files.map file_card_json) ++ ']' :: rest)
      = some (files.map file_card_json, rest)
  | [], _, _, h, _, _ => absurd rfl h
  | [f0], fuel, rest, _, hplain, hfuel => by
    obtain ⟨f, rfl⟩ : ∃ f, fuel = f + 8 := ⟨fuel - 8, by simp at hfuel; omega⟩
    show parseJItems (f + 8) (dumpsJ (file_card_json f0) ++ ']' :: rest)
      = some ([file_card_json f0], rest)
    rw [file_card_json_eq, parseJItems,
      parseJVal_obj_simple (f + 6) (file_card_members f0) (']' :: rest)
        (by simp [file_card_members])
        (card_members_simple f0 (hplain f0 (by simp)))
        (by simp [file_card_members])]
    simp only [dropJsonWs_cons (show jsonWsChar ']' = false from by decide),
      if_neg (show ¬(']' : Char) = ',' from by decide), if_pos rfl, if_true]
  | f0 :: g :: fs, fuel, rest, _, hplain, hfuel => by
    obtain ⟨f, rfl⟩ : ∃ f, fuel = f + 8 := ⟨fuel - 8, by simp at hfuel; omega⟩
    have harg : dumpsItems ((f0 :: g :: fs).map file_card_json) ++ ']' :: rest
        = dumpsJ (file_card_json f0) ++ ',' :: ' '
            :: (dumpsItems ((g :: fs).map file_card_json) ++ ']' :: rest) := by
      simp [dumpsItems, List.append_assoc]
    rw [harg, file_card_json_eq, parseJItems,
      parseJVal_obj_simple (f + 6) (file_card_members f0) _
        (by simp [file_card_members])
        (card_members_simple f0 (hplain f0 (by simp)))
        (by simp [file_card_members])]
    simp only [dropJsonWs_cons (show jsonWsChar ',' = false from by decide),
      if_pos rfl, if_true]
    rw [parseJItems_ws (f + 7) ' ' _ (by decide),
      parseJItems_cards (g :: fs) (f + 7) rest (by simp)
        (fun x hx => hplain x (List.mem_cons_of_mem _ hx))
        (by simp at hfuel ⊢; omega)]
    rw [← file_card_json_eq]
    rfl

/-- Parsing an array of file cards, as a value (the array may be empty). -/
theorem parseJVal_arr_cards (fuel : Nat) (files : List FileRec)
    (rest : List Char) (hplain : ∀ f ∈ files, plain_file_rec f = true)
    (hfuel : files.length * 7 + 1 ≤ fuel) :
    parseJVal (fuel + 1) (dumpsJ (PyJson.arr (files.map file_card_json)) ++ rest)
      = some (PyJson.arr (files.map file_card_json), rest) := by
  cases files with
  | nil =>
    show parseJVal (fuel + 1) ('[' :: ']' :: rest) = some (PyJson.arr [], rest)
    rw [parseJVal, dropJsonWs_cons (show jsonWsChar '[' = false from by decide)]
    simp only [if_neg (show ¬('[' : Char) = 'n' from by decide),
      if_neg (show ¬('[' : Char) = 't' from by decide),
      if_neg (show ¬('[' : Char) = 'f' from by decide),
      if_neg (show ¬('[' : Char) = '"' from by decide), if_pos rfl, if_true,
      dropJsonWs_cons (show jsonWsChar ']' = false from by decide)]
  | cons f0 tl =>
    have hhead : ∃ R, dumpsItems ((f0 :: tl).map file_card_json)
        = lbraceChar :: R := by
      cases tl with
      | nil => exact ⟨_, rfl⟩
      | cons g tl2 => exact ⟨_, rfl⟩
    obtain ⟨R, hR⟩ := hhead
    have harg : dumpsJ (PyJson.arr ((f0 :: tl).map file_card_json)) ++ rest
        = '[' :: (dumpsItems ((f0 :: tl).map file_card_json) ++ ']' :: rest) := by
      simp [dumpsJ, List.append_assoc]
    rw [harg, parseJVal,
      dropJsonWs_cons (show jsonWsChar '[' = false from by decide)]
    simp only [if_neg (show ¬('[' : Char) = 'n' from by decide),
      if_neg (show ¬('[' : Char) = 't' from by decide),
      if_neg (show ¬('[' : Char) = 'f' from by decide),
      if_neg (show ¬('[' : Char) = '"' from by decide), if_pos rfl, if_true]
    rw [hR, List.cons_append,
      dropJsonWs_cons (show jsonWsChar lbraceChar = false from by decide)]
    simp only [if_neg (show ¬lbraceChar = ']' from by decide)]
    rw [← List.cons_append, ← hR,
      parseJItems_cards (f0 :: tl) fuel rest (by simp) hplain hfuel]
    rfl

/-- Parsing the two members of the meta object. -/
theorem parseJMembers_meta (f : Nat) (ids : List String) (files : List FileRec)
    (rest : List Char) (hne : ids ≠ [])
    (hplain : ∀ x ∈ ids, plain_json_str x = true)
    (hfiles : ∀ fr ∈ files, plain_file_rec fr = true)
    (hf1 : ids.length + 1 ≤ f + 2) (hf2 : files.length * 7 + 1 ≤ f + 1) :
    parseJMembers (f + 4)
      (dumpsMembers [("file_ids", PyJson.arr (ids.map PyJson.str)),
                     ("files", PyJson.arr (files.map file_card_json))]
        ++ rbraceChar :: rest)
      = some ([("file_ids", PyJson.arr (ids.map PyJson.str)),
               ("files", PyJson.arr (files.map file_card_json))], rest) := by
  have h1esc : "file_ids".data.flatMap jsonEscape = "file_ids".data := by decide
  have h2esc : "files".data.flatMap jsonEscape = "files".data := by decide
  have harg : dumpsMembers [("file_ids", PyJson.arr (ids.map PyJson.str)),
        ("files", PyJson.arr (files.map file_card_json))] ++ rbraceChar :: rest
      = '"' :: ("file_ids".data ++ '"' :: ':'
          :: (' ' :: (dumpsJ (PyJson.arr (ids.map PyJson.str))
            ++ ',' :: ' ' :: ('"' :: ("files".data ++ '"' :: ':'
              :: (' ' :: (dumpsJ (PyJson.arr (files.map file_card_json))
                ++ rbraceChar :: rest))))))) := by
    simp [dumpsMembers, dumpsStr, h1esc, h2esc, List.append_assoc]
  rw [harg, parseJMembers_key_step (f + 3) "file_ids" (by decide) _,
    parseJVal_ws (f + 3) ' ' _ (by decide),
    parseJVal_arr_strs (f + 2) ids _ hne hplain hf1]
  simp only [dropJsonWs_cons (show jsonWsChar ',' = false from by decide),
    if_pos rfl, if_true]
  rw [parseJMembers_ws (f + 3) ' ' _ (by decide),
    parseJMembers_key_step (f + 2) "files" (by decide) _,
    parseJVal_ws (f + 2) ' ' _ (by decide),
    parseJVal_arr_cards (f + 1) files _ hfiles hf2]
  simp only [dropJsonWs_cons (show jsonWsChar rbraceChar = false from by decide),
    if_neg (show ¬rbraceChar = ',' from by decide), if_pos rfl, if_true]
  rfl

/-- Parsing the rendered meta object, as a value. -/
theorem parseJVal_meta (f : Nat) (ids : List String) (files : List FileRec)
    (rest : List Char) (hne : ids ≠ [])
    (hplain : ∀ x ∈ ids, plain_json_str x = true)
    (hfiles : ∀ fr ∈ files, plain_file_rec fr = true)
    (hf1 : ids.length + 1 ≤ f + 2) (hf2 : files.length * 7 + 1 ≤ f + 1) :
    parseJVal (f + 5) (dumpsJ (meta_json_of ids files) ++ rest)
      = some (meta_json_of ids files, rest) := by
  have harg : dumpsJ (meta_json_of ids files) ++ rest
      = lbraceChar
          :: (dumpsMembers [("file_ids", PyJson.arr (ids.map PyJson.str)),
                ("files", PyJson.arr (files.map file_card_json))]
            ++ rbraceChar :: rest) := by
    simp [meta_json_of, dumpsJ, List.append_assoc]
  rw [harg, parseJVal,
    dropJsonWs_cons (show jsonWsChar lbraceChar = false from by decide)]
  simp only [if_neg (show ¬lbraceChar = 'n' from by decide),
    if_neg (show ¬lbraceChar = 't' from by decide),
    if_neg (show ¬lbraceChar = 'f' from by decide),
    if_neg (show ¬lbraceChar = '"' from by decide),
    if_neg (show ¬lbraceChar = '[' from by decide), if_pos rfl, if_true]
  have hh : ∃ R, dumpsMembers [("file_ids", PyJson.arr (ids.map PyJson.str)),
      ("files", PyJson.arr (files.map file_card_json))] = '"' :: R := ⟨_, rfl⟩
  obtain ⟨R, hR⟩ := hh
  rw [hR, List.cons_append,
    dropJsonWs_cons (show jsonWsChar '"' = false from by decide)]
  simp only [if_neg (show ¬('"' : Char) = rbraceChar from by decide)]
  rw [← List.cons_append, ← hR,
    parseJMembers_meta f ids files rest hne hplain hfiles hf1 hf2]
  rfl

theorem dumpsStr_len (s : String) : 2 ≤ (dumpsStr s).length := by
  simp [dumpsStr]

theorem dumpsMembers_len :
    ∀ ms : List (String × PyJson), 4 * ms.length ≤ (dumpsMembers ms).length + 2
  | [] => by simp [dumpsMembers]
  | [(k, v)] => by
    have h1 := dumpsStr_len k
    simp [dumpsMembers]
    omega
  | (k, v) :: m :: tl => by
    have h1 := dumpsStr_len k
    have ih := dumpsMembers_len (m :: tl)
    simp [dumpsMembers] at ih ⊢
    omega

theorem card_len (fr : FileRec) : 7 ≤ (dumpsJ (file_card_json fr)).length := by
  have h := dumpsMembers_len (file_card_members fr)
  rw [file_card_json_eq]
  simp [dumpsJ, file_card_members] at h ⊢
  omega

theorem items_cards_len :
    ∀ files : List FileRec,
      7 * files.length ≤ (dumpsItems (files.map file_card_json)).length
  | [] => by simp [dumpsItems]
  | [f0] => by simpa [dumpsItems] using card_len f0
  | f0 :: g :: tl => by
    have h1 := card_len f0
    have ih := items_cards_len (g :: tl)
    simp [dumpsItems] at ih ⊢
    omega

theorem items_strs_len :
    ∀ ids : List String, ids.length ≤ (dumpsItems (ids.map PyJson.str)).length
  | [] => by simp [dumpsItems]
  | [x] => by
    have h1 := dumpsStr_len x
    simp [dumpsItems, dumpsJ]
    omega
  | x :: y :: tl => by
    have h1 := dumpsStr_len x
    have ih := items_strs_len (y :: tl)
    simp [dumpsItems, dumpsJ] at ih ⊢
    omega

theorem meta_len (ids : List String) (files : List FileRec) :
    ids.length + files.length * 7 + 12
      ≤ (dumpsJ (meta_json_of ids files)).length := by
  have e1 : (dumpsStr "file_ids").length = 10 := by decide
  have e2 : (dumpsStr "files").length = 7 := by decide
  have h1 := items_strs_len ids
  have h2 := items_cards_len files
  simp [meta_json_of, dumpsJ, dumpsMembers, e1, e2]
  omega

/-- `json.loads` recovers the rendered meta object. -/
theorem json_loads_meta (ids : List String) (files : List FileRec)
    (hne : ids ≠ []) (hplain : ∀ x ∈ ids, plain_json_str x = true)
    (hfiles : ∀ fr ∈ files, plain_file_rec fr = true) :
    json_loads (⟨dumpsJ (meta_json_of ids files)⟩ : String)
      = some (meta_json_of ids files) := by
  have hlen := meta_len ids files
  obtain ⟨f, hf⟩ :
      ∃ f, (dumpsJ (meta_json_of ids files)).length + 1 = f + 5 :=
    ⟨(dumpsJ (meta_json_of ids files)).length - 4, by omega⟩
  rw [json_loads,
    show (⟨dumpsJ (meta_json_of ids files)⟩ : String).data
      = dumpsJ (meta_json_of ids files) from rfl, hf,
    show dumpsJ (meta_json_of ids files)
      = dumpsJ (meta_json_of ids files) ++ ([] : List Char)
      from (List.append_nil _).symm,
    parseJVal_meta f ids files [] hne hplain hfiles (by omega) (by omega)]
  rfl

theorem pyStrip_ne_empty_of_head (c : Char) (l : List Char)
    (h : isPySpace c = false) : pyStrip (⟨c :: l⟩ : String) ≠ "" := by
  intro he
  have hd : pyStripL (c :: l) = [] := congrArg String.data he
  have h1 : (c :: l).dropWhile isPySpace = c :: l := by
    simp [List.dropWhile_cons, h]
  rw [pyStripL, h1] at hd
  have h2 : (c :: l).reverse.dropWhile isPySpace = [] := by
    have := congrArg List.reverse hd
    simpa using this
  have h3 : ∀ x ∈ (c :: l).reverse, isPySpace x = true :=
    List.dropWhile_eq_nil_iff.mp h2
  have h4 : isPySpace c = true := h3 c (by simp)
  rw [h] at h4
  exact Bool.false_ne_true h4

/-- `_safe_json_loads_object` recovers the meta members. -/
theorem safe_json_loads_object_meta (ids : List String) (files : List FileRec)
    (hne : ids ≠ []) (hplain : ∀ x ∈ ids, plain_json_str x = true)
    (hfiles : ∀ fr ∈ files, plain_file_rec fr = true) :
    safe_json_loads_object (⟨dumpsJ (meta_json_of ids files)⟩ : String)
      = [("file_ids", PyJson.arr (ids.map PyJson.str)),
         ("files", PyJson.arr (files.map file_card_json))] := by
  obtain ⟨R, hR⟩ : ∃ R, dumpsJ (meta_json_of ids files) = lbraceChar :: R :=
    ⟨_, rfl⟩
  have hns : pyStrip (⟨dumpsJ (meta_json_of ids files)⟩ : String) ≠ "" := by
    rw [hR]
    exact pyStrip_ne_empty_of_head lbraceChar R (by decide)
  rw [safe_json_loads_object, if_neg hns,
    json_loads_meta ids files hne hplain hfiles]
  rfl

/-! The first `[[/MESSAGE_META]]` in the encoded content sits exactly at the
end of the rendered meta JSON: the rendering contains no two adjacent
brackets, so the close sentinel cannot start inside it. -/

theorem noLB_dumpsStr {s : String} (h : plain_json_str s = true) :
    ∀ c ∈ dumpsStr s, c ≠ '[' := by
  have hesc : s.data.flatMap jsonEscape = s.data :=
    flatMap_jsonEscape_plain (fun c hc => by
      obtain ⟨h1, h2, h3, _⟩ := plain_json_str_spec h c hc
      exact ⟨h1, h2, h3⟩)
  intro c hc
  rw [dumpsStr, hesc] at hc
  simp only [List.mem_cons, List.mem_append, List.mem_singleton,
    List.not_mem_nil, or_false] at hc
  rcases hc with rfl | hc | rfl
  · decide
  · exact (plain_json_str_spec h c hc).2.2.2
  · decide

theorem digit_noLB {c : Char} (h : c.isDigit = true) : c ≠ '[' := by
  intro hc
  subst hc
  exact absurd h (by decide)

theorem noLB_intChars (n : Int) : ∀ c ∈ intChars n, c ≠ '[' := by
  obtain ⟨hne, hall, _⟩ := natChars_spec n.natAbs
  intro c hc
  unfold intChars at hc
  split at hc
  · simp only [List.mem_cons] at hc
    rcases hc with rfl | hc
    · decide
    · exact digit_noLB (hall c hc)
  · exact digit_noLB (hall c hc)

theorem noLB_card {fr : FileRec} (h : plain_file_rec fr = true) :
    ∀ c ∈ dumpsJ (file_card_json fr), c ≠ '[' := by
  obtain ⟨⟨⟨h1, h2⟩, h3⟩, h4⟩ : ((plain_json_str (fr.id.getD "")
      ∧ plain_json_str (fr.original_name.getD ""))
      ∧ plain_json_str (fr.mime_type.getD ""))
      ∧ plain_json_str (pyStrOfOptStr fr.id) := by
    simpa [plain_file_rec, Bool.and_eq_true, and_assoc] using h
  have n1 := noLB_dumpsStr h1
  have n2 := noLB_dumpsStr h2
  have n3 := noLB_dumpsStr h3
  have n4 := noLB_dumpsStr
    (plain_json_str_append "/v1/files/" (pyStrOfOptStr fr.id) (by decide) h4)
  have hint := noLB_intChars (fr.size_bytes.getD 0)
  rw [file_card_json_eq]
  simp only [dumpsJ, file_card_members, dumpsMembers, List.forall_mem_append,
    List.forall_mem_cons, List.forall_mem_singleton]
  repeat' apply And.intro
  all_goals first
    | exact n1
    | exact n2
    | exact n3
    | exact n4
    | exact hint
    | decide

theorem noLB_items_strs :
    ∀ (ids : List String), (∀ x ∈ ids, plain_json_str x = true) →
    ∀ c ∈ dumpsItems (ids.map PyJson.str), c ≠ '['
  | [], _ => by simp [dumpsItems]
  | [x], h => by
    show ∀ c ∈ dumpsStr x, c ≠ '['
    exact noLB_dumpsStr (h x (by simp))
  | x :: y :: ys, h => by
    have ih := noLB_items_strs (y :: ys)
      (fun z hz => h z (List.mem_cons_of_mem _ hz))
    have hx := noLB_dumpsStr (h x (by simp))
    simp only [List.map_cons] at ih ⊢
    simp only [dumpsItems, dumpsJ, List.forall_mem_append,
      List.forall_mem_cons]
    repeat' apply And.intro
    all_goals first
      | exact hx
      | exact ih
      | decide

theorem noLB_items_cards :
    ∀ (files : List FileRec), (∀ fr ∈ files, plain_file_rec fr = true) →
    ∀ c ∈ dumpsItems (files.map file_card_json), c ≠ '['
  | [], _ => by simp [dumpsItems]
  | [f0], h => by
    show ∀ c ∈ dumpsJ (file_card_json f0), c ≠ '['
    exact noLB_card (h f0 (by simp))
  | f0 :: g :: fs, h => by
    have ih := noLB_items_cards (g :: fs)
      (fun z hz => h z (List.mem_cons_of_mem _ hz))
    have hx := noLB_card (h f0 (by simp))
    simp only [List.map_cons] at ih ⊢
    simp only [dumpsItems, List.forall_mem_append, List.forall_mem_cons]
    repeat' apply And.intro
    all_goals first
      | exact hx
      | exact ih
      | decide

theorem hasDoubleLBrack_of_noLB :
    ∀ l : List Char, (∀ c ∈ l, c ≠ '[') → hasDoubleLBrack l = false
  | [], _ => rfl
  | [_], _ => rfl
  | a :: b :: r, h => by
    have ih := hasDoubleLBrack_of_noLB (b :: r)
      (fun c hc => h c (List.mem_cons_of_mem _ hc))
    rw [hasDoubleLBrack, ih]
    have ha : decide (a = '[') = false := by simp [h a (by simp)]
    simp [ha]

theorem getLast_ne_lb {l : List Char} (h : ∀ c ∈ l, c ≠ '[') :
    l.getLast? ≠ some '[' := fun hl =>
  h '[' (List.mem_of_mem_getLast? hl) rfl

theorem head_append_ne_lb {O B : List Char} (hO : ∀ c ∈ O, c ≠ '[')
    (hB : B.head? ≠ some '[') : (O ++ B).head? ≠ some '[' := by
  cases O with
  | nil => simpa using hB
  | cons c r =>
    simp only [List.cons_append, List.head?_cons]
    intro hc
    have hc' : c = '[' := by simpa using hc
    exact hO c (by simp) hc'

theorem hasDoubleLBrack_append_false :
    ∀ (A : List Char) (B : List Char),
    hasDoubleLBrack A = false → hasDoubleLBrack B = false →
    (A.getLast? ≠ some '[' ∨ B.head? ≠ some '[') →
    hasDoubleLBrack (A ++ B) = false
  | [], _, _, hB, _ => hB
  | [a], B, hA, hB, hjoin => by
    cases B with
    | nil => simpa using hA
    | cons b B2 =>
      show hasDoubleLBrack (a :: b :: B2) = false
      rw [hasDoubleLBrack, hB]
      simp only [Bool.or_false]
      rcases hjoin with hj | hj
      · have ha : a ≠ '[' := fun he => hj (by simp [he])
        simp [ha]
      · have hb : b ≠ '[' := fun he => hj (by simp [he])
        simp [hb]
  | a :: a2 :: A2, B, hA, hB, hjoin => by
    rw [hasDoubleLBrack] at hA
    have hA1 : (decide (a = '[') && decide (a2 = '[')) = false :=
      (Bool.or_eq_false_iff.mp hA).1
    have hA2 : hasDoubleLBrack (a2 :: A2) = false :=
      (Bool.or_eq_false_iff.mp hA).2
    have hjoin2 : (a2 :: A2).getLast? ≠ some '[' ∨ B.head? ≠ some '[' := by
      rcases hjoin with hj | hj
      · exact Or.inl (by rwa [List.getLast?_cons_cons] at hj)
      · exact Or.inr hj
    have hrec := hasDoubleLBrack_append_false (a2 :: A2) B hA2 hB hjoin2
    rw [List.cons_append, List.cons_append, hasDoubleLBrack, hA1,
      ← List.cons_append, hrec]
    rfl

theorem hdb_append_double : ∀ (p t2 : List Char),
    hasDoubleLBrack (p ++ '[' :: '[' :: t2) = true
  | [], t2 => by simp [hasDoubleLBrack]
  | [c], t2 => by simp [hasDoubleLBrack]
  | c :: d :: p2, t2 => by
    have ih := hdb_append_double (d :: p2) t2
    rw [List.cons_append] at ih
    rw [List.cons_append, List.cons_append, hasDoubleLBrack, ih]
    simp

theorem hdb_of_suffix {a b : Char} {t2 l : List Char}
    (hsuf : (a :: b :: t2) <:+ l) (ha : a = '[') (hb : b = '[') :
    hasDoubleLBrack l = true := by
  subst ha
  subst hb
  obtain ⟨p, rfl⟩ := hsuf
  exact hdb_append_double p t2

theorem isPrefixOf_append_self : ∀ (l r : List Char),
    l.isPrefixOf (l ++ r) = true
  | [], r => by simp [List.isPrefixOf]
  | c :: t, r => by simp [List.isPrefixOf, isPrefixOf_append_self t r]

theorem findSubAux_skip :
    ∀ (pre : List Char) (pat suf : List Char) (i : Nat),
    (∀ t, t ≠ [] → t <:+ pre → pat.isPrefixOf (t ++ suf) = false) →
    findSubAux pat (pre ++ suf) i = findSubAux pat suf (i + pre.length)
  | [], pat, suf, i, _ => by simp
  | c :: pre2, pat, suf, i, h => by
    have hc : pat.isPrefixOf ((c :: pre2) ++ suf) = false :=
      h (c :: pre2) (by simp) (List.suffix_refl _)
    have hc' : pat.isPrefixOf (c :: (pre2 ++ suf)) = false := by
      rwa [List.cons_append] at hc
    rw [List.cons_append, findSubAux, if_neg (by simp [hc']),
      findSubAux_skip pre2 pat suf (i + 1)
        (fun t ht hsuf => h t ht (hsuf.trans (List.suffix_cons c pre2)))]
    have harith : i + 1 + pre2.length = i + (c :: pre2).length := by
      simp [List.length_cons]
      omega
    rw [harith]

theorem findSubAux_here (pat l : List Char) (i : Nat) (hne : pat ≠ [])
    (h : pat.isPrefixOf l = true) : findSubAux pat l i = some i := by
  cases l with
  | nil =>
    cases pat with
    | nil => exact absurd rfl hne
    | cons a r => simp [List.isPrefixOf] at h
  | cons c rest => rw [findSubAux, if_pos h]

/-- The rendered meta JSON never contains two adjacent open brackets. -/
theorem meta_no_double_lb (ids : List String) (files : List FileRec)
    (hplain : ∀ x ∈ ids, plain_json_str x = true)
    (hfiles : ∀ fr ∈ files, plain_file_rec fr = true) :
    hasDoubleLBrack (dumpsJ (meta_json_of ids files)) = false := by
  have hS := noLB_items_strs ids hplain
  have hO := noLB_items_cards files hfiles
  have harg : dumpsJ (meta_json_of ids files)
      = (lbraceChar :: (dumpsStr "file_ids" ++ [':', ' ', '[']))
        ++ (dumpsItems (ids.map PyJson.str)
          ++ (([']', ',', ' '] ++ (dumpsStr "files" ++ [':', ' ', '[']))
            ++ (dumpsItems (files.map file_card_json)
              ++ [']', rbraceChar]))) := by
    simp [meta_json_of, dumpsJ, dumpsMembers, List.append_assoc]
  have hd5 : hasDoubleLBrack ([']', rbraceChar] : List Char) = false := by
    decide
  have hd3 : hasDoubleLBrack
      (([']', ',', ' '] ++ (dumpsStr "files" ++ [':', ' ', '['])) :
        List Char) = false := by decide
  have hd1 : hasDoubleLBrack
      ((lbraceChar :: (dumpsStr "file_ids" ++ [':', ' ', '['])) :
        List Char) = false := by decide
  have hdR3 : hasDoubleLBrack
      (dumpsItems (files.map file_card_json) ++ [']', rbraceChar]) = false :=
    hasDoubleLBrack_append_false _ _ (hasDoubleLBrack_of_noLB _ hO) hd5
      (Or.inr (by decide))
  have hheadR3 : (dumpsItems (files.map file_card_json)
      ++ [']', rbraceChar]).head? ≠ some '[' :=
    head_append_ne_lb hO (by decide)
  have hdR2 : hasDoubleLBrack
      ((([']', ',', ' '] ++ (dumpsStr "files" ++ [':', ' ', '['])))
        ++ (dumpsItems (files.map file_card_json) ++ [']', rbraceChar]))
      = false :=
    hasDoubleLBrack_append_false _ _ hd3 hdR3 (Or.inr hheadR3)
  have hdR1 : hasDoubleLBrack
      (dumpsItems (ids.map PyJson.str)
        ++ ((([']', ',', ' '] ++ (dumpsStr "files" ++ [':', ' ', '['])))
          ++ (dumpsItems (files.map file_card_json) ++ [']', rbraceChar])))
      = false :=
    hasDoubleLBrack_append_false _ _ (hasDoubleLBrack_of_noLB _ hS) hdR2
      (Or.inl (getLast_ne_lb hS))
  have hheadR2 : ((([']', ',', ' ']
      ++ (dumpsStr "files" ++ [':', ' ', '['])))
      ++ (dumpsItems (files.map file_card_json)
        ++ [']', rbraceChar])).head? ≠ some '[' := by
    simp [List.cons_append]
  have hheadR1 : (dumpsItems (ids.map PyJson.str)
      ++ ((([']', ',', ' '] ++ (dumpsStr "files" ++ [':', ' ', '[']))
        ++ (dumpsItems (files.map file_card_json)
          ++ [']', rbraceChar])))).head? ≠ some '[' :=
    head_append_ne_lb hS hheadR2
  rw [harg]
  exact hasDoubleLBrack_append_false _ _ hd1 hdR1 (Or.inr hheadR1)
/-! Normalization of file ids on already-stripped, non-empty input is exactly
order-preserving deduplication. -/

theorem normalize_ids_go_stripped :
    ∀ (ids acc : List String),
    (∀ i ∈ ids, pyStrip i = i ∧ i ≠ "") →
    normalize_ids_go acc ids
      = .ok (ids.foldl (fun a x => if x ∈ a then a else a ++ [x]) acc)
  | [], _, _ => rfl
  | item :: rest, acc, h => by
    obtain ⟨hstrip, hne⟩ := h item (by simp)
    simp only [normalize_ids_go, hstrip]
    rw [if_neg hne]
    by_cases hmem : item ∈ acc
    · rw [if_pos hmem, normalize_ids_go_stripped rest acc
        (fun i hi => h i (List.mem_cons_of_mem _ hi))]
      simp [List.foldl_cons, hmem]
    · rw [if_neg hmem, normalize_ids_go_stripped rest (acc ++ [item])
        (fun i hi => h i (List.mem_cons_of_mem _ hi))]
      simp [List.foldl_cons, hmem]

theorem mem_dedup_foldl :
    ∀ (xs acc : List String) (y : String),
    y ∈ xs.foldl (fun a x => if x ∈ a then a else a ++ [x]) acc →
    y ∈ acc ∨ y ∈ xs
  | [], _, _, h => Or.inl h
  | x :: xs, acc, y, h => by
    rw [List.foldl_cons] at h
    rcases mem_dedup_foldl xs _ y h with hy | hy
    · by_cases hx : x ∈ acc
      · rw [if_pos hx] at hy
        exact Or.inl hy
      · rw [if_neg hx] at hy
        simp only [List.mem_append, List.mem_singleton] at hy
        rcases hy with hy | rfl
        · exact Or.inl hy
        · exact Or.inr (by simp)
    · exact Or.inr (List.mem_cons_of_mem _ hy)

theorem dedup_foldl_len :
    ∀ (xs acc : List String),
    acc.length ≤ (xs.foldl (fun a x => if x ∈ a then a else a ++ [x]) acc).length
  | [], _ => le_refl _
  | x :: xs, acc => by
    rw [List.foldl_cons]
    refine le_trans ?_ (dedup_foldl_len xs _)
    by_cases hx : x ∈ acc
    · rw [if_pos hx]
    · rw [if_neg hx]
      simp

theorem dedup_ne_nil {ids : List String} (h : ids ≠ []) :
    dedup_preserving_order ids ≠ [] := by
  obtain ⟨z, zs, rfl⟩ : ∃ z zs, ids = z :: zs := by
    cases ids with
    | nil => exact absurd rfl h
    | cons z zs => exact ⟨z, zs, rfl⟩
  unfold dedup_preserving_order
  rw [List.foldl_cons,
    show (if z ∈ ([] : List String) then ([] : List String) else [] ++ [z])
      = [z] from by simp]
  intro he
  have hlen := dedup_foldl_len zs [z]
  rw [he] at hlen
  simp at hlen

theorem mem_dedup {ids : List String} {y : String}
    (h : y ∈ dedup_preserving_order ids) : y ∈ ids := by
  have h2 := mem_dedup_foldl ids [] y h
  simpa using h2

theorem normalize_file_ids_stripped (ids : List String)
    (h : ∀ i ∈ ids, pyStrip i = i ∧ i ≠ "")
    (hcount : (dedup_preserving_order ids).length
      ≤ MAX_FILE_ATTACHMENTS_PER_MESSAGE) :
    normalize_file_ids ids = .ok (dedup_preserving_order ids) := by
  rw [normalize_file_ids, normalize_ids_go_stripped ids [] h]
  show (if (dedup_preserving_order ids).length > MAX_FILE_ATTACHMENTS_PER_MESSAGE
      then (Except.error ⟨400, "too many files attached"⟩
        : Except ApiError (List String))
      else .ok (dedup_preserving_order ids))
    = .ok (dedup_preserving_order ids)
  rw [if_neg (by omega)]

/-! Parsing the encoded message content. -/

theorem enc_data (clean : List String) (files : List FileRec) (text : String) :
    (MESSAGE_META_OPEN ++ (⟨dumpsJ (meta_json_of clean files)⟩ : String)
        ++ MESSAGE_META_CLOSE ++ text).data
      = MESSAGE_META_OPEN.data ++ (dumpsJ (meta_json_of clean files)
          ++ (MESSAGE_META_CLOSE.data ++ text.data)) := by
  have h1 : ∀ (a b : String), (a ++ b).data = a.data ++ b.data := fun _ _ => rfl
  rw [h1, h1, h1,
    show ((⟨dumpsJ (meta_json_of clean files)⟩ : String)).data
      = dumpsJ (meta_json_of clean files) from rfl]
  simp [List.append_assoc]

theorem close_not_in_meta (clean : List String) (files : List FileRec)
    (hplain : ∀ x ∈ clean, plain_json_str x = true)
    (hfiles : ∀ fr ∈ files, plain_file_rec fr = true) (X : List Char) :
    ∀ t, t ≠ [] → t <:+ dumpsJ (meta_json_of clean files) →
      MESSAGE_META_CLOSE.data.isPrefixOf
        (t ++ (MESSAGE_META_CLOSE.data ++ X)) = false := by
  intro t ht hsuf
  have hnodb := meta_no_double_lb clean files hplain hfiles
  have hc : MESSAGE_META_CLOSE.data
      = '[' :: '[' :: '/' :: "MESSAGE_META]]".data := rfl
  cases t with
  | nil => exact absurd rfl ht
  | cons a t2 =>
    cases t2 with
    | nil =>
      rw [hc]
      simp [List.isPrefixOf]
    | cons b t3 =>
      by_cases ha : a = '['
      · by_cases hb : b = '['
        · have hdb := hdb_of_suffix hsuf ha hb
          rw [hnodb] at hdb
          exact absurd hdb (by decide)
        · subst ha
          rw [hc]
          have hb' : ¬('[' : Char) = b := fun hprf => hb hprf.symm
          simp [List.isPrefixOf, beq_iff_eq, hb']
      · rw [hc]
        have ha' : ¬('[' : Char) = a := fun hprf => ha hprf.symm
        simp [List.isPrefixOf, beq_iff_eq, ha']

theorem find_close_encoded (clean : List String) (files : List FileRec)
    (text : String)
    (hplain : ∀ x ∈ clean, plain_json_str x = true)
    (hfiles : ∀ fr ∈ files, plain_file_rec fr = true) :
    str_find_from
        (MESSAGE_META_OPEN ++ (⟨dumpsJ (meta_json_of clean files)⟩ : String)
          ++ MESSAGE_META_CLOSE ++ text)
        MESSAGE_META_CLOSE MESSAGE_META_OPEN.length
      = some ((dumpsJ (meta_json_of clean files)).length
          + MESSAGE_META_OPEN.length) := by
  rw [str_find_from]
  have hdrop : (MESSAGE_META_OPEN
        ++ (⟨dumpsJ (meta_json_of clean files)⟩ : String)
        ++ MESSAGE_META_CLOSE ++ text).data.drop MESSAGE_META_OPEN.length
      = dumpsJ (meta_json_of clean files)
          ++ (MESSAGE_META_CLOSE.data ++ text.data) := by
    rw [enc_data,
      show MESSAGE_META_OPEN.length = MESSAGE_META_OPEN.data.length from rfl,
      List.drop_left]
  rw [hdrop,
    findSubAux_skip _ _ _ 0 (close_not_in_meta clean files hplain hfiles
      text.data),
    findSubAux_here _ _ _ (by decide) (isPrefixOf_append_self _ _)]
  simp

theorem parse_encoded (clean : List String) (files : List FileRec)
    (text : String) (hne : clean ≠ [])
    (hplain : ∀ x ∈ clean, plain_json_str x = true)
    (hfiles : ∀ fr ∈ files, plain_file_rec fr = true) :
    parse_message_content_with_meta
        (MESSAGE_META_OPEN ++ (⟨dumpsJ (meta_json_of clean files)⟩ : String)
          ++ MESSAGE_META_CLOSE ++ text)
      = (text, [("file_ids", PyJson.arr (clean.map PyJson.str)),
                ("files", PyJson.arr (files.map file_card_json))]) := by
  have hlen := meta_len clean files
  have hpre : MESSAGE_META_OPEN.data.isPrefixOf
      (MESSAGE_META_OPEN ++ (⟨dumpsJ (meta_json_of clean files)⟩ : String)
        ++ MESSAGE_META_CLOSE ++ text).data = true := by
    rw [enc_data]
    exact isPrefixOf_append_self _ _
  have hfind := find_close_encoded clean files text hplain hfiles
  rw [parse_message_content_with_meta, if_pos hpre]
  simp only [hfind]
  rw [if_pos (show MESSAGE_META_OPEN.length
      < (dumpsJ (meta_json_of clean files)).length + MESSAGE_META_OPEN.length
      from by omega)]
  have hdrop : (MESSAGE_META_OPEN
        ++ (⟨dumpsJ (meta_json_of clean files)⟩ : String)
        ++ MESSAGE_META_CLOSE ++ text).data.drop MESSAGE_META_OPEN.length
      = dumpsJ (meta_json_of clean files)
          ++ (MESSAGE_META_CLOSE.data ++ text.data) := by
    rw [enc_data,
      show MESSAGE_META_OPEN.length = MESSAGE_META_OPEN.data.length from rfl,
      List.drop_left]
  have htake : ((MESSAGE_META_OPEN
        ++ (⟨dumpsJ (meta_json_of clean files)⟩ : String)
        ++ MESSAGE_META_CLOSE ++ text).data.drop
          MESSAGE_META_OPEN.length).take
        ((dumpsJ (meta_json_of clean files)).length
          + MESSAGE_META_OPEN.length - MESSAGE_META_OPEN.length)
      = dumpsJ (meta_json_of clean files) := by
    rw [hdrop,
      show (dumpsJ (meta_json_of clean files)).length
          + MESSAGE_META_OPEN.length - MESSAGE_META_OPEN.length
        = (dumpsJ (meta_json_of clean files)).length from by omega,
      List.take_left]
  have hbody : (MESSAGE_META_OPEN
        ++ (⟨dumpsJ (meta_json_of clean files)⟩ : String)
        ++ MESSAGE_META_CLOSE ++ text).data.drop
          ((dumpsJ (meta_json_of clean files)).length
            + MESSAGE_META_OPEN.length + MESSAGE_META_CLOSE.length)
      = text.data := by
    rw [enc_data,
      show (dumpsJ (meta_json_of clean files)).length
          + MESSAGE_META_OPEN.length + MESSAGE_META_CLOSE.length
        = MESSAGE_META_OPEN.data.length
            + ((dumpsJ (meta_json_of clean files)).length
              + MESSAGE_META_CLOSE.length) from by
        rw [show MESSAGE_META_OPEN.length = MESSAGE_META_OPEN.data.length
          from rfl]
        omega,
      List.drop_append ((dumpsJ (meta_json_of clean files)).length
        + MESSAGE_META_CLOSE.length),
      List.drop_append MESSAGE_META_CLOSE.length,
      show MESSAGE_META_CLOSE.length = MESSAGE_META_CLOSE.data.length from rfl,
      List.drop_left]
  show ((⟨(MESSAGE_META_OPEN
        ++ (⟨dumpsJ (meta_json_of clean files)⟩ : String)
        ++ MESSAGE_META_CLOSE ++ text).data.drop
          ((dumpsJ (meta_json_of clean files)).length
            + MESSAGE_META_OPEN.length + MESSAGE_META_CLOSE.length)⟩
        : String),
      safe_json_loads_object ⟨(MESSAGE_META_OPEN
        ++ (⟨dumpsJ (meta_json_of clean files)⟩ : String)
        ++ MESSAGE_META_CLOSE ++ text).data.drop
          MESSAGE_META_OPEN.length |>.take
          ((dumpsJ (meta_json_of clean files)).length
            + MESSAGE_META_OPEN.length - MESSAGE_META_OPEN.length)⟩)
    = (text, [("file_ids", PyJson.arr (clean.map PyJson.str)),
              ("files", PyJson.arr (files.map file_card_json))])
  rw [hbody, htake, string_mk_data,
    safe_json_loads_object_meta clean files hne hplain hfiles]

/-- C6 (corrected): for every text and every non-empty list of file ids that
are already stripped, non-blank and plain (and survive the attachment cap),
with file records whose string fields are plain, encoding with the
message-meta sentinel and parsing back round-trips: the parsed body equals
the original text and the parsed meta's `file_ids` member is the input ids
deduplicated preserving order.  (The original claim fails for empty id
lists: the encoder then returns the text unchanged, and a text that itself
starts with the sentinel is mangled by the parser.) -/
theorem claim6_meta_roundtrip_amended (text : String) (ids : List String)
    (files : List FileRec) (hne : ids ≠ [])
    (hids : ∀ i ∈ ids, pyStrip i = i ∧ i ≠ "" ∧ plain_json_str i = true)
    (hcount : (dedup_preserving_order ids).length
      ≤ MAX_FILE_ATTACHMENTS_PER_MESSAGE)
    (hfiles : ∀ fr ∈ files, plain_file_rec fr = true) :
    ∃ enc, encode_message_content_with_meta text ids files = .ok enc
      ∧ (parse_message_content_with_meta enc).1 = text
      ∧ json_object_get (parse_message_content_with_meta enc).2 "file_ids"
          = some (PyJson.arr ((dedup_preserving_order ids).map PyJson.str)) := by
  have hnorm : normalize_file_ids ids = .ok (dedup_preserving_order ids) :=
    normalize_file_ids_stripped ids
      (fun i hi => ⟨(hids i hi).1, (hids i hi).2.1⟩) hcount
  have hcne : dedup_preserving_order ids ≠ [] := dedup_ne_nil hne
  have hcplain : ∀ x ∈ dedup_preserving_order ids, plain_json_str x = true :=
    fun x hx => (hids x (mem_dedup hx)).2.2
  have hparse := parse_encoded (dedup_preserving_order ids) files text
    hcne hcplain hfiles
  refine ⟨MESSAGE_META_OPEN
      ++ (⟨dumpsJ (meta_json_of (dedup_preserving_order ids) files)⟩ : String)
      ++ MESSAGE_META_CLOSE ++ text, ?_, ?_, ?_⟩
  · rw [encode_message_content_with_meta, hnorm]
    show (if dedup_preserving_order ids = []
        then (Except.ok text : Except ApiError String)
        else .ok (MESSAGE_META_OPEN
          ++ (⟨dumpsJ (meta_json_of (dedup_preserving_order ids) files)⟩
            : String) ++ MESSAGE_META_CLOSE ++ text))
      = .ok (MESSAGE_META_OPEN
          ++ (⟨dumpsJ (meta_json_of (dedup_preserving_order ids) files)⟩
            : String) ++ MESSAGE_META_CLOSE ++ text)
    rw [if_neg hcne]
  · rw [hparse]
  · rw [hparse]
    rfl

/-- Witness for C6: a concrete round trip through encode and parse. -/
theorem claim6_witness :
    ∃ enc, encode_message_content_with_meta "hi" ["a7"] [] = .ok enc
      ∧ (parse_message_content_with_meta enc).1 = "hi"
      ∧ json_object_get (parse_message_content_with_meta enc).2 "file_ids"
          = some (PyJson.arr
              ((dedup_preserving_order ["a7"]).map PyJson.str)) :=
  claim6_meta_roundtrip_amended "hi" ["a7"] [] (by decide) (by decide)
    (by decide) (by decide)

end OpenClaw
